import Mathlib

/-!
Verification of the curation pipeline of the `ai-newsletter-automation`
repository against its natural-language specification.

The Python sources are shallowly embedded: pure functions become Lean
functions over `String` / `List` / `ℚ` (Python floats are idealised as
rationals), effectful calls (HTTP fetches, LLM calls, file I/O, clock)
become explicit parameters carrying the call's result, and Python
exceptions become `Except` / marker constructors.  Each definition is
translated from the source file named in its doc comment.
-/

namespace NewsAuto

/-! ### models.py -/

/-- Source `models.py`, `ArticleHit` dataclass. -/
structure ArticleHit where
  title : String
  url : String
  snippet : String
  source : Option String := none
  published : Option String := none
deriving DecidableEq, Repr, Inhabited

/-- Source `models.py`, `VerifiedArticle` dataclass.  Note: the dataclass
declares exactly the five fields below; it has no `scraped_published_date`
field (see `verifiedArticleFields`). -/
structure VerifiedArticle where
  title : String
  url : String
  snippet : String
  content : String
  published : Option String := none
deriving DecidableEq, Repr, Inhabited

instance exceptDecEq {ε α : Type} [DecidableEq ε] [DecidableEq α] :
    DecidableEq (Except ε α) := fun a b =>
  match a, b with
  | .error e, .error f =>
    if h : e = f then .isTrue (by rw [h]) else .isFalse (by simp [h])
  | .error _, .ok _ => .isFalse (by simp)
  | .ok _, .error _ => .isFalse (by simp)
  | .ok x, .ok y =>
    if h : x = y then .isTrue (by rw [h]) else .isFalse (by simp [h])

/-- The field names of the `VerifiedArticle` dataclass in `models.py`
(order of declaration). -/
def verifiedArticleFields : List String :=
  ["title", "url", "snippet", "content", "published"]

/-- A Python dataclass call with keyword arguments succeeds iff every
keyword names a declared field; an unknown keyword raises `TypeError`. -/
def dataclassAccepts (fields kwargs : List String) : Bool :=
  kwargs.all fields.contains

/-! ### Stable sorting

Python's `sorted(xs, key=k, reverse=True)` and `list.sort(key=k, reverse=True)`
are stable sorts placing larger keys first.  Any stable sort computes the
same list; we model them with `List.insertionSort` on the non-strict
relation "my key is at least yours", which is stable: an element is
inserted before exactly the already-placed elements with strictly smaller
keys, and those all came later in the input. -/

/-- Model of Python's `sorted(xs, key=key, reverse=True)`. -/
def pySortDescBy {α β : Type} [LinearOrder β] (key : α → β) (l : List α) : List α :=
  l.insertionSort (fun a b => key b ≤ key a)

theorem pySortDescBy_perm {α β : Type} [LinearOrder β] (key : α → β) (l : List α) :
    (pySortDescBy key l).Perm l :=
  List.perm_insertionSort _ l

theorem pySortDescBy_sorted {α β : Type} [LinearOrder β] (key : α → β) (l : List α) :
    (pySortDescBy key l).Pairwise (fun a b => key b ≤ key a) := by
  haveI : IsTotal α (fun a b => key b ≤ key a) := ⟨fun a b => (le_total (key a) (key b)).symm⟩
  haveI : IsTrans α (fun a b => key b ≤ key a) := ⟨fun _ _ _ h1 h2 => le_trans h2 h1⟩
  exact List.sorted_insertionSort _ l

theorem orderedInsert_filter_key {α β : Type} [LinearOrder β] [DecidableEq α] (key : α → β)
    (q : β) (a : α) (l : List α) :
    (l.orderedInsert (fun x y => key y ≤ key x) a).filter (fun x => key x = q) =
      if key a = q then a :: l.filter (fun x => key x = q)
      else l.filter (fun x => key x = q) := by
  induction l with
  | nil =>
    by_cases haq : key a = q <;> simp [List.orderedInsert, haq]
  | cons b t ih =>
    by_cases hab : key b ≤ key a
    · simp only [List.orderedInsert, if_pos hab]
      by_cases haq : key a = q <;> simp [List.filter_cons, haq]
    · simp only [List.orderedInsert, if_neg hab]
      by_cases hbq : key b = q
      · have haq : key a ≠ q := fun h => hab (le_of_eq (hbq.trans h.symm))
        simp [List.filter_cons, hbq, haq, ih]
      · by_cases haq : key a = q <;> simp [List.filter_cons, hbq, haq, ih]

/-- Stability of the model of Python sorting: for every key value `q`, the
elements whose key is `q` appear in the output in the same order as in
the input. -/
theorem pySortDescBy_stable {α β : Type} [LinearOrder β] [DecidableEq α] (key : α → β)
    (q : β) (l : List α) :
    (pySortDescBy key l).filter (fun x => key x = q) = l.filter (fun x => key x = q) := by
  induction l with
  | nil => rfl
  | cons a t ih =>
    show ((pySortDescBy key t).orderedInsert _ a).filter _ = _
    rw [orderedInsert_filter_key key q a _]
    by_cases haq : key a = q
    · rw [if_pos haq, ih, List.filter_cons_of_pos (by simpa using haq)]
    · rw [if_neg haq, ih, List.filter_cons_of_neg (by simpa using haq)]

/-! ### rerank.py -/

/-- One object of the parsed LLM JSON array in `rerank.py`.  `index` is
`obj.get("index", 0)` and `score` is `obj.get("score", 5)` after `int()`;
`none` models an absent key (the `.get` default applies). -/
structure ScoreObj where
  index : Option Int := none
  score : Option Int := none
deriving DecidableEq, Repr

/-- One iteration of the `for obj in data` loop of `_parse_scores`:
`idx = int(obj.get("index", 0)) - 1`, and the score is written only when
`0 <= idx < count`. -/
def parseScoresStep (count : Nat) (scores : List Int) (obj : ScoreObj) : List Int :=
  if 0 ≤ obj.index.getD 0 - 1 ∧ obj.index.getD 0 - 1 < (count : Int) then
    scores.set (obj.index.getD 0 - 1).toNat (obj.score.getD 5)
  else scores

/-- Source `rerank.py`, `_parse_scores`, after `json.loads` succeeded on
the (fence-stripped) response and produced a list of objects whose
`index`/`score` fields convert with `int()` without raising.  `count` is
the number of articles. -/
def parseScores (data : List ScoreObj) (count : Nat) : List Int :=
  data.foldl (parseScoresStep count) (List.replicate count 5)

/-- Python attribute access on a dataclass instance: reading an attribute
that is not a declared field raises `AttributeError`. -/
def hasAttr (fields : List String) (name : String) : Bool :=
  fields.contains name

/-- The attributes `_build_rerank_prompt` reads from every article in its
loop, in source order (`rerank.py:33-37`): `a.content`, `a.snippet`,
`a.scraped_published_date`, `a.published`, `a.title`. -/
def rerankPromptAttrs : List String :=
  ["content", "snippet", "scraped_published_date", "published", "title"]

/-- Source `rerank.py`, `_build_rerank_prompt`.  The loop body reads the
attributes in `rerankPromptAttrs` from each article; a read of an
attribute the `VerifiedArticle` dataclass does not declare raises
`AttributeError` (`Except.error`).  The prompt string itself is only
handed to the modelled LLM call, so the model tracks just whether the
build raises. -/
def buildRerankPrompt (articles : List VerifiedArticle) : Except Unit Unit :=
  if articles.all (fun _ => rerankPromptAttrs.all (hasAttr verifiedArticleFields)) then
    .ok ()
  else .error ()

/-- Result of `rerank_articles`: a normal return, or an uncaught
`AttributeError` escaping from the unguarded code before the `try`
block. -/
inductive RerankResult where
  | ok : List VerifiedArticle → RerankResult
  | attributeError : RerankResult
deriving DecidableEq, Repr

/-- Source `rerank.py`, `rerank_articles`.  `limit` and
`relevance_threshold` are the `SectionConfig` fields used.  After the
length guard, the unguarded region runs first: `get_settings()` and
`genai.configure` (`rerank.py:72-75`, configuration reads that are
modelled as non-raising) and then `_build_rerank_prompt`
(`rerank.py:77`), whose exceptions are NOT caught — the `try` only
starts at `rerank.py:84`.  `outcome` carries the result of that guarded
region (`GenerativeModel` construction, the scoring call with its retry
loop, and `_parse_scores`): `Except.error` when any of it raised,
`Except.ok data` when the response parsed to the object list `data`. -/
def rerankArticles (articles : List VerifiedArticle) (limit : Nat)
    (relevanceThreshold : Int) (outcome : Except Unit (List ScoreObj)) :
    RerankResult :=
  if articles.length ≤ limit then .ok articles
  else
    match buildRerankPrompt articles with
    | .error _ => .attributeError
    | .ok _ =>
      match outcome with
      | .error _ => .ok articles
      | .ok data =>
        let scores := parseScores data articles.length
        let scored := articles.zip scores
        let kept := scored.filter (fun p => relevanceThreshold ≤ p.2)
        .ok ((pySortDescBy (fun p => p.2) kept).map (·.1))

/-! ### runner.py, `_process_single_hit` -/

/-- Result of `_process_single_hit`: either a normal return, or the
`TypeError` raised when `VerifiedArticle(...)` is called with a keyword
argument that is not a declared dataclass field. -/
inductive ProcResult where
  | ok : Option VerifiedArticle → ProcResult
  | typeError : ProcResult
deriving DecidableEq, Repr

/-- Keyword arguments of the final `VerifiedArticle(...)` call in
`_process_single_hit` (`runner.py`). -/
def processHitReturnKwargs : List String :=
  ["title", "url", "snippet", "content", "published", "scraped_published_date"]

set_option linter.unusedVariables false in
/-- Source `runner.py`, `_process_single_hit`.  The effectful helpers are
passed as the results they produced: `verifyRes` is `verify_link(hit.url)`
with exceptions already folded to `none` (the source wraps the call in
`try/except` doing exactly that), `scrapeRes` likewise for
`scrape(hit.url, html=html)`, and `metaDate` for
`extract_metadata(html).get("date")`.  The final constructor call passes
`scraped_published_date=`, which the `VerifiedArticle` dataclass does not
declare, so that call raises `TypeError` whenever it is reached. -/
def processSingleHit (hit : ArticleHit) (verifyRes scrapeRes : Option String)
    (metaDate : Option String) : ProcResult :=
  if hit.url = "" then .ok none
  else
    match verifyRes with
    | none =>
      if hit.snippet ≠ "" ∧ 80 < hit.snippet.length then
        .ok (some { title := hit.title, url := hit.url, snippet := hit.snippet,
                    content := hit.snippet, published := hit.published })
      else .ok none
    | some _ =>
      let content? : Option String :=
        match scrapeRes with
        | some c => if c = "" then none else some c
        | none => none
      let build : String → ProcResult := fun content =>
        if dataclassAccepts verifiedArticleFields processHitReturnKwargs then
          -- unreachable: `scraped_published_date` is not a field, so the
          -- call raises; the `VerifiedArticle` below is what the source
          -- intends to build (`metaDate` cannot be stored).
          .ok (some { title := hit.title, url := hit.url, snippet := hit.snippet,
                      content := content, published := hit.published })
        else .typeError
      match content? with
      | none =>
        if hit.snippet ≠ "" ∧ 40 < hit.snippet.length then build hit.snippet
        else .ok none
      | some c => build c

/-! ### Theorems about `_parse_scores` and `rerank_articles` (claims C3, C10) -/

theorem parseScoresStep_length (n : Nat) (acc : List Int) (obj : ScoreObj) :
    (parseScoresStep n acc obj).length = acc.length := by
  unfold parseScoresStep
  split
  · exact List.length_set ..
  · rfl

theorem parseScores_foldl_length (n : Nat) (data : List ScoreObj) (acc : List Int) :
    (data.foldl (parseScoresStep n) acc).length = acc.length := by
  induction data generalizing acc with
  | nil => rfl
  | cons o t ih => rw [List.foldl_cons, ih, parseScoresStep_length]

theorem parseScores_foldl_untouched (n : Nat) (i : Nat) (data : List ScoreObj)
    (acc : List Int) (h : ∀ obj ∈ data, obj.index.getD 0 ≠ (i : Int) + 1) :
    (data.foldl (parseScoresStep n) acc).getD i 0 = acc.getD i 0 := by
  induction data generalizing acc with
  | nil => rfl
  | cons o t ih =>
    rw [List.foldl_cons, ih _ fun obj hm => h obj (List.mem_cons_of_mem o hm)]
    unfold parseScoresStep
    split
    next hin =>
      have hgt : (o.index.getD 0 - 1).toNat ≠ i := by
        intro he
        have : o.index.getD 0 - 1 = (i : Int) := by
          rw [← he, Int.toNat_of_nonneg hin.1]
        exact h o (List.mem_cons_self o t) (by omega)
      simp only [List.getD, List.get?_eq_getElem?]
      rw [List.getElem?_set_ne hgt]
    · rfl

theorem parseScores_foldl_filter (n : Nat) (data : List ScoreObj) (acc : List Int) :
    data.foldl (parseScoresStep n) acc =
      (data.filter (fun o => 1 ≤ o.index.getD 0 ∧ o.index.getD 0 ≤ (n : Int))).foldl
        (parseScoresStep n) acc := by
  induction data generalizing acc with
  | nil => rfl
  | cons o t ih =>
    rw [List.foldl_cons, List.filter_cons]
    by_cases hp : 1 ≤ o.index.getD 0 ∧ o.index.getD 0 ≤ (n : Int)
    · rw [if_pos (by simpa using hp), List.foldl_cons, ih]
    · rw [if_neg (by simpa using hp)]
      have hstep : parseScoresStep n acc o = acc := by
        unfold parseScoresStep
        rw [if_neg (by omega)]
      rw [hstep, ih]

/-- Claim C10: `_parse_scores` always returns exactly `count` scores; an
object whose 1-indexed `index` is out of `[1, count]` is ignored, and any
position not named by an object keeps the default score 5. -/
theorem parse_scores_total_default (data : List ScoreObj) (n : Nat) :
    (parseScores data n).length = n
    ∧ (∀ i : Nat, i < n → (∀ obj ∈ data, obj.index.getD 0 ≠ (i : Int) + 1) →
        (parseScores data n).getD i 0 = 5)
    ∧ parseScores data n =
        parseScores
          (data.filter (fun o => 1 ≤ o.index.getD 0 ∧ o.index.getD 0 ≤ (n : Int))) n := by
  refine ⟨?_, fun i hi hno => ?_, ?_⟩
  · rw [parseScores, parseScores_foldl_length, List.length_replicate]
  · rw [parseScores, parseScores_foldl_untouched n i data _ hno,
      List.getD_eq_getElem?_getD, List.getElem?_replicate, if_pos hi]
    rfl
  · exact parseScores_foldl_filter n data _

/-- Witness for `parse_scores_total_default` at a concrete response:
three articles, one in-range object naming article 2, one out-of-range
object (index 7) that is ignored; position 0 keeps the default 5. -/
theorem parse_scores_total_default_witness :
    (parseScores [{ index := some 2, score := some 9 },
                  { index := some 7, score := some 1 }] 3).getD 0 0 = 5 :=
  (parse_scores_total_default
    [{ index := some 2, score := some 9 }, { index := some 7, score := some 1 }] 3).2.1
    0 (by decide) (by decide)

/-- The prompt build raises `AttributeError` on every nonempty article
list: `a.scraped_published_date` (`rerank.py:36`) is not a field of the
`VerifiedArticle` dataclass. -/
theorem buildRerankPrompt_nonempty (articles : List VerifiedArticle)
    (h : articles ≠ []) : buildRerankPrompt articles = .error () := by
  unfold buildRerankPrompt
  have hattr : rerankPromptAttrs.all (hasAttr verifiedArticleFields) = false := by decide
  match articles, h with
  | a :: t, _ => simp [List.all_cons, hattr]

/-- Claim C3 (failing): the reranker is not fail-open.  Whenever the
input list is longer than the section limit (so nonempty),
`_build_rerank_prompt` runs before the `try` block and reads
`a.scraped_published_date`, an attribute the `VerifiedArticle` dataclass
does not declare, so `rerank_articles` raises `AttributeError` before
any scoring call — for every outcome of the guarded region; in
particular a scoring-call error does not yield the input list back. -/
theorem rerank_attribute_error (articles : List VerifiedArticle) (limit : Nat)
    (relevanceThreshold : Int) (outcome : Except Unit (List ScoreObj))
    (h : limit < articles.length) :
    rerankArticles articles limit relevanceThreshold outcome = .attributeError
      ∧ rerankArticles articles limit relevanceThreshold (.error ()) ≠
          .ok articles := by
  have hne : articles ≠ [] := by
    intro he
    rw [he] at h
    exact absurd h (by simp)
  have hmain : ∀ oc : Except Unit (List ScoreObj),
      rerankArticles articles limit relevanceThreshold oc = .attributeError := by
    intro oc
    unfold rerankArticles
    rw [if_neg (not_le.mpr h), buildRerankPrompt_nonempty articles hne]
  exact ⟨hmain outcome, by rw [hmain (.error ())]; exact fun hc => RerankResult.noConfusion hc⟩

/-- Witness for `rerank_attribute_error` at a concrete one-article list
with `section.limit = 0` and a scoring-call error. -/
theorem rerank_attribute_error_witness :
    rerankArticles [{ title := "t", url := "u", snippet := "s", content := "c" }] 0 6
      (.error ()) = .attributeError :=
  (rerank_attribute_error
    [{ title := "t", url := "u", snippet := "s", content := "c" }] 0 6
    (.error ()) (by decide)).1

/-! ### Theorems about `_process_single_hit` (claims C1, C8) -/

/-- Concrete candidate hit used for the C1 failing input. -/
def hitC1 : ArticleHit :=
  { title := "Model launch", url := "https://example.com/a", snippet := "short",
    source := some "RSS", published := some "2024-01-05" }

/-- Claim C1 (failing): the final `VerifiedArticle(...)` call of
`_process_single_hit` passes `scraped_published_date=`, but the
`VerifiedArticle` dataclass in `models.py` declares no such field, so on
every hit whose page is fetched and scraped the call raises `TypeError`
instead of returning an article carrying the scraped date. -/
theorem process_hit_scraped_date_typeError :
    "scraped_published_date" ∈ processHitReturnKwargs
    ∧ "scraped_published_date" ∉ verifiedArticleFields
    ∧ processSingleHit hitC1 (some "<html>body</html>") (some "extracted text")
        (some "2024-01-04") = .typeError := by
  refine ⟨by decide, by decide, ?_⟩
  decide

/-- Claim C8: when verification fails (`verify_link` returned `None` or
raised), a hit with a snippet longer than 80 characters yields a degraded
article whose `snippet` and `content` both equal the original snippet,
and a hit with a shorter snippet is dropped. -/
theorem verify_failed_snippet_fallback (hit : ArticleHit) (s m : Option String)
    (hu : hit.url ≠ "") :
    processSingleHit hit none s m =
      if 80 < hit.snippet.length then
        .ok (some { title := hit.title, url := hit.url, snippet := hit.snippet,
                    content := hit.snippet, published := hit.published })
      else .ok none := by
  unfold processSingleHit
  rw [if_neg hu]
  by_cases h80 : 80 < hit.snippet.length
  · have hne : hit.snippet ≠ "" := by
      intro he
      rw [he] at h80
      exact absurd h80 (by decide)
    simp [h80, hne]
  · simp [h80]

/-- Witness for `verify_failed_snippet_fallback`: a hit with a 90-character
snippet is degraded, not dropped. -/
theorem verify_failed_snippet_fallback_witness :
    processSingleHit
      { title := "T", url := "https://example.com/x",
        snippet := String.mk (List.replicate 90 'a'), published := some "2024-01-05" }
      none none none =
      .ok (some { title := "T", url := "https://example.com/x",
                  snippet := String.mk (List.replicate 90 'a'),
                  content := String.mk (List.replicate 90 'a'),
                  published := some "2024-01-05" }) := by
  rw [verify_failed_snippet_fallback _ _ _ (by decide)]
  decide

/-! ### urllib model (used by `assemble.py` and `source_quality.py`)

`urlparse` / `urlunparse` / `parse_qs` / `urlencode` / `quote_plus` /
`unquote_plus` are modelled from CPython's `urllib.parse`, at the level
of Unicode code points.  `quote_plus` percent-encodes the UTF-8 bytes of
a character; `unquote_plus` is modelled faithfully for percent-escapes
that decode to ASCII bytes (multi-byte UTF-8 escape sequences decode here
to one U+FFFD per byte, where CPython would run a full UTF-8 decoder —
all theorems below stay within the ASCII fragment). -/

/-- ASCII lowercasing, as `str.lower` acts on ASCII strings. -/
def asciiLower (c : Char) : Char :=
  if 'A' ≤ c ∧ c ≤ 'Z' then Char.ofNat (c.toNat + 32) else c

def lowerChars (l : List Char) : List Char := l.map asciiLower

/-- Python's `s.split(sep, 1)`: `none` when `sep` does not occur. -/
def splitFirstChar (sep : Char) : List Char → Option (List Char × List Char)
  | [] => none
  | c :: r =>
    if c = sep then some ([], r)
    else (splitFirstChar sep r).map (fun p => (c :: p.1, p.2))

/-- Python's `s.split(sep)` (always at least one piece). -/
def splitOnChar (sep : Char) : List Char → List (List Char)
  | [] => [[]]
  | c :: r =>
    match splitOnChar sep r with
    | [] => [[]]
    | h :: t => if c = sep then [] :: h :: t else (c :: h) :: t

def hexVal (c : Char) : Option Nat :=
  if '0' ≤ c ∧ c ≤ '9' then some (c.toNat - 48)
  else if 'a' ≤ c ∧ c ≤ 'f' then some (c.toNat - 87)
  else if 'A' ≤ c ∧ c ≤ 'F' then some (c.toNat - 55)
  else none

def hexDigitUpper (n : Nat) : Char :=
  if n < 10 then Char.ofNat (48 + n) else Char.ofNat (55 + n)

/-- UTF-8 encoding of one code point (as byte values). -/
def utf8Bytes (c : Char) : List Nat :=
  if c.toNat < 0x80 then [c.toNat]
  else if c.toNat < 0x800 then [0xC0 + c.toNat / 64, 0x80 + c.toNat % 64]
  else if c.toNat < 0x10000 then
    [0xE0 + c.toNat / 4096, 0x80 + c.toNat / 64 % 64, 0x80 + c.toNat % 64]
  else
    [0xF0 + c.toNat / 262144, 0x80 + c.toNat / 4096 % 64, 0x80 + c.toNat / 64 % 64,
     0x80 + c.toNat % 64]

/-- CPython's `_ALWAYS_SAFE` set: ASCII letters, digits, and `_.-~`. -/
def alwaysSafe (c : Char) : Bool :=
  c.isAlphanum || c = '_' || c = '.' || c = '-' || c = '~'

/-- Model of `urllib.parse.quote_plus` with `safe=''` on one character. -/
def quotePlusChar (c : Char) : List Char :=
  if c = ' ' then ['+']
  else if alwaysSafe c then [c]
  else (utf8Bytes c).flatMap
    (fun b => ['%', hexDigitUpper (b / 16), hexDigitUpper (b % 16)])

def quotePlus (l : List Char) : List Char := l.flatMap quotePlusChar

/-- Model of `urllib.parse.unquote_plus` (`'+'` to space, `%XX` escapes decoded;
see the section comment for the non-ASCII byte caveat). -/
def unquotePlus : List Char → List Char
  | [] => []
  | c :: h1 :: h2 :: r2 =>
    if c = '+' then ' ' :: unquotePlus (h1 :: h2 :: r2)
    else if c = '%' then
      match hexVal h1, hexVal h2 with
      | some v1, some v2 =>
        (if 16 * v1 + v2 < 128 then Char.ofNat (16 * v1 + v2) else '�') ::
          unquotePlus r2
      | _, _ => '%' :: unquotePlus (h1 :: h2 :: r2)
    else c :: unquotePlus (h1 :: h2 :: r2)
  | c :: r =>
    if c = '+' then ' ' :: unquotePlus r
    else if c = '%' then '%' :: unquotePlus r
    else c :: unquotePlus r

/-- Model of `urllib.parse.parse_qsl` with default arguments (`keep_blank_values`
false, separator `'&'`): pairs without `'='` and pairs whose raw value is
empty are skipped; names and values are decoded with `unquote_plus`. -/
def parseQsl (qs : String) : List (String × String) :=
  (splitOnChar '&' qs.data).filterMap fun nv =>
    if nv = [] then none
    else
      match splitFirstChar '=' nv with
      | none => none
      | some (n, v) =>
        if v = [] then none else some (⟨unquotePlus n⟩, ⟨unquotePlus v⟩)

/-- One insertion into the `parse_qs` result dict: append to an existing
key's list, else add a new entry at the end (dict insertion order). -/
def dictAdd : List (String × List String) → String → String → List (String × List String)
  | [], n, v => [(n, [v])]
  | (k, vs) :: rest, n, v =>
    if k = n then (k, vs ++ [v]) :: rest else (k, vs) :: dictAdd rest n v

/-- Model of `urllib.parse.parse_qs` with default arguments. -/
def parseQs (qs : String) : List (String × List String) :=
  (parseQsl qs).foldl (fun acc p => dictAdd acc p.1 p.2) []

/-- Python's `sep.join(parts)` for a one-character separator. -/
def joinSep (sep : Char) : List (List Char) → List Char
  | [] => []
  | [p] => p
  | p :: ps => p ++ sep :: joinSep sep ps

/-- Model of `urllib.parse.urlencode(d, doseq=True)` on a dict of string lists. -/
def urlencodeDoseq (d : List (String × List String)) : String :=
  ⟨joinSep '&'
    (d.flatMap fun p => p.2.map fun v => quotePlus p.1.data ++ '=' :: quotePlus v.data)⟩

/-- Result of `urllib.parse.urlparse` (six components). -/
structure UrlParts where
  scheme : String
  netloc : String
  path : String
  params : String
  query : String
  fragment : String
deriving DecidableEq, Repr, Inhabited

def isSchemeChar (c : Char) : Bool :=
  c.isAlphanum || c = '+' || c = '-' || c = '.'

/-- Scheme extraction step of `urlsplit`: the part before the first `':'`
is a scheme iff it is nonempty, starts with an ASCII letter and contains
only scheme characters; it is lower-cased. -/
def splitScheme (l : List Char) : List Char × List Char :=
  match splitFirstChar ':' l with
  | some (pre, post) =>
    if pre ≠ [] ∧ (pre.headD 'a').isAlpha ∧ pre.all isSchemeChar then
      (lowerChars pre, post)
    else ([], l)
  | none => ([], l)

/-- Netloc extraction step of `urlsplit`: after a leading `"//"`, the
netloc runs until the next `'/'`, `'?'` or `'#'`. -/
def splitNetloc (l : List Char) : List Char × List Char :=
  match l with
  | '/' :: '/' :: rest =>
    (rest.takeWhile (fun c => ¬(c = '/' ∨ c = '?' ∨ c = '#')),
     rest.dropWhile (fun c => ¬(c = '/' ∨ c = '?' ∨ c = '#')))
  | _ => ([], l)

/-- Model of `_splitparams`: split `';'`-params off the last path segment. -/
def splitParamsStep (l : List Char) : List Char × List Char :=
  if '/' ∈ l then
    match splitFirstChar '/' l.reverse with
    | some (revSuffix, revPre) =>
      let pre := revPre.reverse ++ ['/']
      let suffix := revSuffix.reverse
      match splitFirstChar ';' suffix with
      | none => (l, [])
      | some (segPre, post) => (pre ++ segPre, post)
    | none => (l, [])
  else
    match splitFirstChar ';' l with
    | none => (l, [])
    | some (pre, post) => (pre, post)

/-- Schemes for which `urlparse` splits params (`uses_params`). -/
def usesParams : List String :=
  ["", "ftp", "hdl", "prospero", "http", "imap", "https", "shttp", "rtsp",
   "rtspu", "sip", "sips", "mms", "sftp", "tel"]

/-- Model of `urllib.parse.urlparse`: tab/CR/LF removal, then scheme, netloc,
fragment, query and params splitting, in CPython's order. -/
def urlparse (url : String) : UrlParts :=
  let l := url.data.filter fun c => ¬(c = '\t' ∨ c = '\r' ∨ c = '\n')
  let (scheme, rest) := splitScheme l
  let (netloc, rest) := splitNetloc rest
  let (rest, fragment) :=
    match splitFirstChar '#' rest with
    | some (pre, frag) => (pre, frag)
    | none => (rest, [])
  let (rest, query) :=
    match splitFirstChar '?' rest with
    | some (pre, q) => (pre, q)
    | none => (rest, [])
  let (path, params) :=
    if (⟨scheme⟩ : String) ∈ usesParams ∧ ';' ∈ rest then splitParamsStep rest
    else (rest, [])
  { scheme := ⟨scheme⟩, netloc := ⟨netloc⟩, path := ⟨path⟩,
    params := ⟨params⟩, query := ⟨query⟩, fragment := ⟨fragment⟩ }

/-- Model of `urllib.parse.urlunparse` (via `urlunsplit`). -/
def urlunparse (p : UrlParts) : String :=
  let url := p.path.data
  let url := if p.params ≠ "" then url ++ ';' :: p.params.data else url
  let url :=
    if p.netloc ≠ "" ∨ url.take 2 = ['/', '/'] then
      let url' := if url ≠ [] ∧ url.headD ' ' ≠ '/' then '/' :: url else url
      '/' :: '/' :: p.netloc.data ++ url'
    else url
  let url := if p.scheme ≠ "" then p.scheme.data ++ ':' :: url else url
  let url := if p.query ≠ "" then url ++ '?' :: p.query.data else url
  let url := if p.fragment ≠ "" then url ++ '#' :: p.fragment.data else url
  ⟨url⟩

/-- The `hostname` property of a parse result: part of the netloc after
the last `'@'`, inside brackets if present, else before the first `':'`,
lower-cased. -/
def urlHostname (netloc : List Char) : List Char :=
  let hostinfo :=
    match splitFirstChar '@' netloc.reverse with
    | some (revHost, _) => revHost.reverse
    | none => netloc
  let host :=
    if '[' ∈ hostinfo then
      match splitFirstChar '[' hostinfo with
      | some (_, br) =>
        match splitFirstChar ']' br with
        | some (h, _) => h
        | none => br
      | none => hostinfo
    else hostinfo.takeWhile (fun c => c ≠ ':')
  lowerChars host

/-! ### assemble.py, `_add_utm` -/

/-- The `utm_params` dict of `_add_utm`, in insertion order. -/
def utmParams (sectionKey runDate : String) : List (String × String) :=
  [("utm_source", "ai_this_week"), ("utm_medium", "email"),
   ("utm_campaign", runDate), ("utm_content", sectionKey)]

/-- The `for k, v in utm_params.items(): if k not in existing_params:
existing_params[k] = [v]` loop of `_add_utm`. -/
def addMissingUtm (params : List (String × String))
    (existing : List (String × List String)) : List (String × List String) :=
  params.foldl
    (fun acc kv => if acc.any (fun e => e.1 = kv.1) then acc else acc ++ [(kv.1, [kv.2])])
    existing

/-- The query-string transformation done by `_add_utm`
(`assemble.py`): parse the query, add each missing utm parameter,
re-encode.  Existing parameters are never overwritten. -/
def addUtmQuery (sectionKey runDate : String) (query : String) : String :=
  urlencodeDoseq (addMissingUtm (utmParams sectionKey runDate) (parseQs query))

/-- Source `assemble.py`, `_add_utm`: parse the URL, rebuild the query
with the missing utm parameters added, unparse.  (The source's blanket
`except: return url` can only fire inside `urlparse` on malformed IPv6
netlocs, which the model does not raise on.) -/
def addUtm (url : String) (sectionKey runDate : String) : String :=
  if url = "" then url
  else
    let parsed := urlparse url
    urlunparse { parsed with query := addUtmQuery sectionKey runDate parsed.query }

/-! ### source_quality.py -/

/-- Source `source_quality.py`, `_extract_domain`: hostname of the URL,
with a leading `www.` stripped, lower-cased. -/
def extractDomain (url : String) : String :=
  let hostname := urlHostname (urlparse url).netloc.data
  let hostname :=
    match hostname with
    | 'w' :: 'w' :: 'w' :: '.' :: rest => rest
    | h => h
  ⟨lowerChars hostname⟩

/-- One record of `source_quality.json`: `{"domain", "score", "timestamp"}`. -/
structure QualityEntry where
  domain : String
  score : ℚ
  timestamp : ℚ
deriving DecidableEq, Repr

/-- One record of `feedback.json`: `{"domain", "url", "rating", "timestamp"}`. -/
structure FeedbackEntry where
  domain : String
  rating : String
  timestamp : ℚ
deriving DecidableEq, Repr

/-- Constant `_WINDOW_SECONDS` (90 days). -/
def windowSeconds : ℚ := 90 * 24 * 3600

/-- Constant `_FEEDBACK_PENALTY_SECONDS` (7 days). -/
def feedbackPenaltySeconds : ℚ := 7 * 24 * 3600

/-- Source `source_quality.py`, `SourceTracker._get_penalty`.  `feedback`
is the parsed content of the feedback file, `now` the value of
`time.time()`. -/
def getPenalty (feedback : List FeedbackEntry) (now : ℚ) (domain : String) : ℚ :=
  let cutoff := now - feedbackPenaltySeconds
  let recentFlags := feedback.filter fun d =>
    d.domain = domain ∧ d.rating = "down" ∧ cutoff < d.timestamp
  min 1 (recentFlags.length * (1 / 5))

/-- Source `source_quality.py`, `SourceTracker.get_boost`.  `quality` is
the parsed content of the quality file. -/
def getBoost (quality : List QualityEntry) (feedback : List FeedbackEntry)
    (now : ℚ) (url : String) : ℚ :=
  let domain := extractDomain url
  if domain = "" then 0
  else
    let penalty := getPenalty feedback now domain
    let cutoff := now - windowSeconds
    let scores := (quality.filter fun d =>
      d.domain = domain ∧ cutoff < d.timestamp).map (·.score)
    if scores = [] then 0
    else
      let avg := scores.sum / scores.length
      let boost := max 0 ((avg - 5) / 5)
      max 0 (boost - penalty)

/-! ### Theorems about `SourceTracker.get_boost` (claim C9) -/

theorem getBoost_eq (quality : List QualityEntry) (feedback : List FeedbackEntry)
    (now : ℚ) (url : String) :
    getBoost quality feedback now url =
      if extractDomain url = "" then 0
      else
        if (quality.filter fun d =>
            d.domain = extractDomain url ∧ now - windowSeconds < d.timestamp).map (·.score) = [] then 0
        else
          max 0 ((max 0
            ((((quality.filter fun d =>
                d.domain = extractDomain url ∧ now - windowSeconds < d.timestamp).map (·.score)).sum /
              ((quality.filter fun d =>
                d.domain = extractDomain url ∧ now - windowSeconds < d.timestamp).map (·.score)).length - 5) / 5))
            - getPenalty feedback now (extractDomain url)) := by
  simp only [getBoost]

theorem getPenalty_nonneg (feedback : List FeedbackEntry) (now : ℚ) (domain : String) :
    0 ≤ getPenalty feedback now domain := by
  unfold getPenalty
  positivity

/-- Claim C9: `get_boost` always lies in `[0, 1]` (given that recorded
relevance scores are at most 10, the scale `record` is fed from), equals
0 exactly when the URL's domain has no score entries inside the 90-day
window, and negative feedback can only lower it, never below 0. -/
theorem source_boost_in_unit_interval (quality : List QualityEntry)
    (feedback : List FeedbackEntry) (now : ℚ) (url : String)
    (hs : ∀ e ∈ quality, e.score ≤ 10) :
    0 ≤ getBoost quality feedback now url
    ∧ getBoost quality feedback now url ≤ 1
    ∧ ((quality.filter fun d =>
          d.domain = extractDomain url ∧ now - windowSeconds < d.timestamp) = [] →
        getBoost quality feedback now url = 0)
    ∧ getBoost quality feedback now url ≤ getBoost quality [] now url := by
  rw [getBoost_eq, getBoost_eq]
  by_cases hd : extractDomain url = ""
  · rw [if_pos hd, if_pos hd]
    exact ⟨le_refl 0, by norm_num, fun _ => rfl, le_refl 0⟩
  · rw [if_neg hd, if_neg hd]
    by_cases hsc : (quality.filter fun d =>
        d.domain = extractDomain url ∧ now - windowSeconds < d.timestamp).map (·.score) = []
    · rw [if_pos hsc, if_pos hsc]
      exact ⟨le_refl 0, by norm_num, fun _ => rfl, le_refl 0⟩
    · rw [if_neg hsc, if_neg hsc]
      set scores := (quality.filter fun d =>
        d.domain = extractDomain url ∧ now - windowSeconds < d.timestamp).map (·.score) with hscdef
      have hpen0 : 0 ≤ getPenalty feedback now (extractDomain url) :=
        getPenalty_nonneg feedback now (extractDomain url)
      have hpenEmpty : getPenalty ([] : List FeedbackEntry) now (extractDomain url) = 0 := by
        unfold getPenalty
        norm_num
      have hlen : 0 < (scores.length : ℚ) := by
        have : scores ≠ [] := hsc
        have : 0 < scores.length := List.length_pos.mpr this
        exact_mod_cast this
      have havg : scores.sum / scores.length ≤ 10 := by
        rw [div_le_iff₀ hlen]
        have hb : ∀ x ∈ scores, x ≤ 10 := by
          intro x hx
          rw [hscdef] at hx
          obtain ⟨e, he, hex⟩ := List.mem_map.mp hx
          exact hex ▸ hs e (List.mem_of_mem_filter he)
        calc scores.sum ≤ scores.length • (10 : ℚ) := List.sum_le_card_nsmul scores 10 hb
          _ = 10 * scores.length := by rw [nsmul_eq_mul]; ring
      have hboost1 : max 0 ((scores.sum / scores.length - 5) / 5) ≤ 1 := by
        apply max_le (by norm_num)
        linarith
      refine ⟨le_max_left _ _, ?_, ?_, ?_⟩
      · apply max_le (by norm_num)
        linarith
      · intro h
        exact absurd (by rw [hscdef, h]; rfl) hsc
      · rw [hpenEmpty]
        apply max_le_max le_rfl
        linarith

/-- Witness for `source_boost_in_unit_interval`: a domain with one
recent score of 8 and one recent negative feedback flag. -/
theorem source_boost_in_unit_interval_witness :
    getBoost [{ domain := "example.com", score := 8, timestamp := 100 }]
      [{ domain := "example.com", rating := "down", timestamp := 150 }]
      200 "https://example.com/a" ≤ 1 :=
  (source_boost_in_unit_interval
    [{ domain := "example.com", score := 8, timestamp := 100 }]
    [{ domain := "example.com", rating := "down", timestamp := 150 }]
    200 "https://example.com/a" (by decide)).2.1

/-! ### search.py: date parsing, date-window filter, time decay

`datetime.strptime` is modelled for exactly the six format strings that
`_parse_date_str` tries, following CPython's `_strptime` regexes
(C locale, `re.IGNORECASE`; the numeric directives are deterministic here
because every directive in these formats is followed by a separator, so
no regex backtracking across directives can change the outcome).  A
parsed datetime is represented by its wall-clock value in seconds since
the epoch plus the `%z` offset when one was parsed (an aware datetime);
comparing an aware datetime with a naive one raises `TypeError` in
Python, which the filter model surfaces as `Except.error`. -/

/-- Seconds-since-epoch plus optional UTC offset (aware iff `offset` set). -/
structure PyDateTime where
  secs : Int
  offset : Option Int := none
deriving DecidableEq, Repr

def isLeapYear (y : Nat) : Bool :=
  y % 4 = 0 && (y % 100 ≠ 0 || y % 400 = 0)

def daysInMonth (y m : Nat) : Nat :=
  if m = 2 then (if isLeapYear y then 29 else 28)
  else if m = 4 ∨ m = 6 ∨ m = 9 ∨ m = 11 then 30
  else 31

/-- Day number of a civil date relative to 1970-01-01 (standard
days-from-civil computation; all intermediate operands are nonnegative
for years ≥ 1, so division semantics do not matter). -/
def daysFromCivil (y m d : Nat) : Int :=
  let yAdj : Nat := if m ≤ 2 then y - 1 else y
  let era : Nat := yAdj / 400
  let yoe : Nat := yAdj - era * 400
  let mp : Nat := (m + 9) % 12
  let doy : Nat := (153 * mp + 2) / 5 + d - 1
  let doe : Nat := yoe * 365 + yoe / 4 - yoe / 100 + doy
  (era : Int) * 146097 + (doe : Int) - 719468

/-- Fields collected while running a format (with `strptime` defaults). -/
structure TimeAcc where
  y : Nat := 1900
  mo : Nat := 1
  d : Nat := 1
  h : Nat := 0
  mi : Nat := 0
  s : Nat := 0
  off : Option Int := none
deriving DecidableEq, Repr, Inhabited

/-- One directive of a `strptime` format string. -/
inductive Directive where
  | lit : Char → Directive
  | ws : Directive
  | dY : Directive
  | dm : Directive
  | dd : Directive
  | dH : Directive
  | dM : Directive
  | dS : Directive
  | da : Directive
  | db : Directive
  | dz : Directive
deriving DecidableEq, Repr

def pDigit (c : Char) : Option Nat :=
  if '0' ≤ c ∧ c ≤ '9' then some (c.toNat - 48) else none

def isPySpace (c : Char) : Bool :=
  c = ' ' || c = '\t' || c = '\n' || c = '\r' || c = '\x0b' || c = '\x0c'

/-- Two-digit-preferring numeric field: `accept2 d1 d2` says whether the
two-digit branch of the regex alternation matches, `accept1 d1` the
one-digit fallback. -/
def parseNum2 (accept2 : Nat → Nat → Bool) (accept1 : Nat → Bool) :
    List Char → Option (Nat × List Char)
  | c1 :: c2 :: r =>
    match pDigit c1, pDigit c2 with
    | some d1, some d2 =>
      if accept2 d1 d2 then some (10 * d1 + d2, r)
      else if accept1 d1 then some (d1, c2 :: r)
      else none
    | some d1, none => if accept1 d1 then some (d1, c2 :: r) else none
    | none, _ => none
  | [c1] =>
    match pDigit c1 with
    | some d1 => if accept1 d1 then some (d1, []) else none
    | none => none
  | [] => none

def weekdayAbbrs : List (List Char) :=
  [['m','o','n'], ['t','u','e'], ['w','e','d'], ['t','h','u'],
   ['f','r','i'], ['s','a','t'], ['s','u','n']]

def monthAbbrs : List (List Char) :=
  [['j','a','n'], ['f','e','b'], ['m','a','r'], ['a','p','r'],
   ['m','a','y'], ['j','u','n'], ['j','u','l'], ['a','u','g'],
   ['s','e','p'], ['o','c','t'], ['n','o','v'], ['d','e','c']]

/-- Case-insensitive match of one fixed word, returning the rest. -/
def matchWord (w : List Char) (l : List Char) : Option (List Char) :=
  if lowerChars (l.take w.length) = w ∧ w.length ≤ l.length then some (l.drop w.length)
  else none

def matchAbbrGo (abbrs : List (List Char)) (i : Nat) (l : List Char) :
    Option (Nat × List Char) :=
  match abbrs with
  | [] => none
  | w :: rest =>
    match matchWord w l with
    | some r => some (i, r)
    | none => matchAbbrGo rest (i + 1) l

/-- First abbreviation (1-based index) matching a prefix of `l`. -/
def matchAbbr (abbrs : List (List Char)) (l : List Char) : Option (Nat × List Char) :=
  matchAbbrGo abbrs 1 l

/-- Directive `%z`: `[+-]HH[:]MM` with optional `[:]SS` (fraction ignored), or a
capital `Z` for UTC. -/
def parseZOffset : List Char → Option (Int × List Char)
  | 'Z' :: r => some (0, r)
  | sgn :: h1 :: h2 :: rest =>
    if sgn = '+' ∨ sgn = '-' then
      match pDigit h1, pDigit h2 with
      | some a, some b =>
        let hh := 10 * a + b
        let afterColon := match rest with
          | ':' :: r2 => r2
          | r2 => r2
        match afterColon with
        | m1 :: m2 :: r3 =>
          match pDigit m1, pDigit m2 with
          | some c, some dgt =>
            if c ≤ 5 then
              let mm := 10 * c + dgt
              let (ss, r4) :=
                match r3 with
                | ':' :: s1 :: s2 :: r5 =>
                  match pDigit s1, pDigit s2 with
                  | some e, some f => if e ≤ 5 then (10 * e + f, r5) else (0, r3)
                  | _, _ => (0, r3)
                | s1 :: s2 :: r5 =>
                  match pDigit s1, pDigit s2 with
                  | some e, some f => if e ≤ 5 then (10 * e + f, r5) else (0, r3)
                  | _, _ => (0, r3)
                | _ => (0, r3)
              let total : Int := hh * 3600 + mm * 60 + ss
              some (if sgn = '-' then -total else total, r4)
            else none
          | _, _ => none
        | _ => none
      | _, _ => none
    else none
  | _ => none

/-- Run a directive list against the input; the whole input must be
consumed (CPython raises "unconverted data remains" otherwise). -/
def runDirectives : List Directive → List Char → TimeAcc → Option TimeAcc
  | [], [], acc => some acc
  | [], _ :: _, _ => none
  | dir :: ds, input, acc =>
    match dir with
    | .lit c =>
      match input with
      | i :: r => if asciiLower i = asciiLower c then runDirectives ds r acc else none
      | [] => none
    | .ws =>
      match input with
      | i :: r =>
        if isPySpace i then runDirectives ds (r.dropWhile isPySpace) acc else none
      | [] => none
    | .dY =>
      match input with
      | a :: b :: c :: d :: r =>
        match pDigit a, pDigit b, pDigit c, pDigit d with
        | some w, some x, some y', some z =>
          runDirectives ds r { acc with y := 1000 * w + 100 * x + 10 * y' + z }
        | _, _, _, _ => none
      | _ => none
    | .dm =>
      match parseNum2 (fun d1 d2 => (d1 = 1 ∧ d2 ≤ 2) ∨ (d1 = 0 ∧ 1 ≤ d2))
          (fun d1 => 1 ≤ d1) input with
      | some (v, r) => runDirectives ds r { acc with mo := v }
      | none => none
    | .dd =>
      match parseNum2
          (fun d1 d2 => (d1 = 3 ∧ d2 ≤ 1) ∨ d1 = 1 ∨ d1 = 2 ∨ (d1 = 0 ∧ 1 ≤ d2))
          (fun d1 => 1 ≤ d1) input with
      | some (v, r) => runDirectives ds r { acc with d := v }
      | none => none
    | .dH =>
      match parseNum2 (fun d1 d2 => (d1 = 2 ∧ d2 ≤ 3) ∨ d1 ≤ 1)
          (fun _ => true) input with
      | some (v, r) => runDirectives ds r { acc with h := v }
      | none => none
    | .dM =>
      match parseNum2 (fun d1 _ => d1 ≤ 5) (fun _ => true) input with
      | some (v, r) => runDirectives ds r { acc with mi := v }
      | none => none
    | .dS =>
      match parseNum2 (fun d1 d2 => (d1 = 6 ∧ d2 ≤ 1) ∨ d1 ≤ 5)
          (fun _ => true) input with
      | some (v, r) => runDirectives ds r { acc with s := v }
      | none => none
    | .da =>
      match matchAbbr weekdayAbbrs input with
      | some (_, r) => runDirectives ds r acc
      | none => none
    | .db =>
      match matchAbbr monthAbbrs input with
      | some (idx, r) => runDirectives ds r { acc with mo := idx }
      | none => none
    | .dz =>
      match parseZOffset input with
      | some (off, r) => runDirectives ds r { acc with off := some off }
      | none => none

/-- The `datetime(...)` constructor validation and conversion to seconds. -/
def buildDateTime (acc : TimeAcc) : Option PyDateTime :=
  if 1 ≤ acc.y ∧ acc.y ≤ 9999 ∧ 1 ≤ acc.mo ∧ acc.mo ≤ 12 ∧ 1 ≤ acc.d ∧
      acc.d ≤ daysInMonth acc.y acc.mo ∧ acc.h ≤ 23 ∧ acc.mi ≤ 59 ∧ acc.s ≤ 59 then
    some { secs := daysFromCivil acc.y acc.mo acc.d * 86400 +
                   (acc.h : Int) * 3600 + (acc.mi : Int) * 60 + (acc.s : Int),
           offset := acc.off }
  else none

def strptime (fmt : List Directive) (input : List Char) : Option PyDateTime :=
  (runDirectives fmt input {}).bind buildDateTime

/-- The six formats tried by `_parse_date_str`, in order. -/
def parseDateFormats : List (List Directive) :=
  [[.dY, .lit '-', .dm, .lit '-', .dd, .lit 'T', .dH, .lit ':', .dM, .lit ':', .dS],
   [.dY, .lit '-', .dm, .lit '-', .dd],
   [.da, .lit ',', .ws, .dd, .ws, .db, .ws, .dY, .ws, .dH, .lit ':', .dM, .lit ':',
    .dS, .ws, .dz],
   [.da, .lit ',', .ws, .dd, .ws, .db, .ws, .dY, .ws, .dH, .lit ':', .dM, .lit ':', .dS],
   [.dY, .lit '-', .dm, .lit '-', .dd, .lit 'T', .dH, .lit ':', .dM, .lit ':', .dS, .dz],
   [.dY, .lit '-', .dm, .lit '-', .dd, .lit 'T', .dH, .lit ':', .dM, .lit ':', .dS,
    .lit 'Z']]

def tryFormats : List (List Directive) → List Char → Option PyDateTime
  | [], _ => none
  | f :: fs, t =>
    match strptime f t with
    | some dt => some dt
    | none => tryFormats fs t

/-- Python `str.strip()` (ASCII whitespace). -/
def pyStrip (l : List Char) : List Char :=
  ((l.dropWhile isPySpace).reverse.dropWhile isPySpace).reverse

/-- Source `search.py`, `_parse_date_str`: try the six formats on
`date_str.strip()[:25]`. -/
def parseDateStr (dateStr : Option String) : Option PyDateTime :=
  match dateStr with
  | none => none
  | some s =>
    if s = "" then none
    else tryFormats parseDateFormats ((pyStrip s.data).take 25)

/-- Source `search.py`, `_TRUSTED_SOURCES`. -/
def trustedSources : List String := ["Google Alert", "arXiv", "PapersWithCode", "RSS"]

/-- The loop body of `_filter_by_date`.  Comparing an aware parsed date
(`offset` set) against the naive `cutoff` raises `TypeError`, which
aborts the whole call (`Except.error`). -/
def filterByDateGo (cutoff : Int) : List ArticleHit → Except Unit (List ArticleHit)
  | [] => .ok []
  | h :: t =>
    match parseDateStr h.published with
    | none =>
      let keep := match h.source with
        | some s => s ≠ "" && trustedSources.contains s
        | none => false
      if keep then (filterByDateGo cutoff t).map (h :: ·) else filterByDateGo cutoff t
    | some pub =>
      match pub.offset with
      | some _ => .error ()
      | none =>
        if pub.secs < cutoff then filterByDateGo cutoff t
        else (filterByDateGo cutoff t).map (h :: ·)

/-- Source `search.py`, `_filter_by_date`; `now` is `datetime.utcnow()`
in epoch seconds, `cutoff = now - timedelta(days=days)`. -/
def filterByDate (now : Int) (hits : List ArticleHit) (days : Int) :
    Except Unit (List ArticleHit) :=
  filterByDateGo (now - days * 86400) hits

/-- Source `search.py`, the `freshness` closure of `_apply_time_decay`:
aware dates are converted to naive UTC, `age_days` may be fractional,
undated hits score a neutral 0.5. -/
def freshness (now : Int) (days : Int) (h : ArticleHit) : ℚ :=
  match parseDateStr h.published with
  | none => 1 / 2
  | some pub =>
    let pubNaive : Int :=
      match pub.offset with
      | some off => pub.secs - off
      | none => pub.secs
    let ageDays : ℚ := ((now - pubNaive : Int) : ℚ) / 86400
    max 0 (1 - ageDays / (days : ℚ))

/-- Source `search.py`, `_apply_time_decay`. -/
def applyTimeDecay (now : Int) (hits : List ArticleHit) (days : Int) : List ArticleHit :=
  if hits = [] ∨ days ≤ 0 then hits
  else pySortDescBy (freshness now days) hits

/-! ### Theorems about `_filter_by_date` (claim C5) -/

/-- A trusted-source hit whose ISO date carries a `+00:00` offset:
`_parse_date_str` parses it with `"%Y-%m-%dT%H:%M:%S%z"` into an aware
datetime. -/
def hitAwareDate : ArticleHit :=
  { title := "aware", url := "https://a.example/1", snippet := "",
    source := some "RSS", published := some "2026-10-11T08:00:00+00:00" }

def hitRecentNaive : ArticleHit :=
  { title := "recent", url := "https://a.example/2", snippet := "",
    source := some "Tavily", published := some "2026-10-11T08:00:00" }

def hitOldNaive : ArticleHit :=
  { title := "old", url := "https://a.example/3", snippet := "",
    source := some "RSS", published := some "2026-09-01" }

def hitUndatedTrusted : ArticleHit :=
  { title := "undated trusted", url := "https://a.example/4", snippet := "",
    source := some "arXiv", published := none }

def hitUndatedOther : ArticleHit :=
  { title := "undated other", url := "https://a.example/5", snippet := "",
    source := some "Tavily", published := none }

/-- Claim C5 (failing): `_filter_by_date` implements keep-iff-in-window
with a trusted-source exemption for undated hits — but a hit whose date
parses with a timezone offset (e.g. ISO `+00:00`, 25 characters, so it
survives the `[:25]` truncation) yields an aware datetime, and comparing
it with the naive cutoff raises `TypeError`, crashing the whole filter
instead of keeping the (in-window) hit.  `now` is
2026-10-12T00:00:00 UTC (epoch 1791763200), window 7 days. -/
theorem filter_by_date_aware_typeError :
    filterByDate 1791763200 [hitAwareDate] 7 = .error ()
    ∧ filterByDate 1791763200
        [hitRecentNaive, hitOldNaive, hitUndatedTrusted, hitUndatedOther] 7 =
        .ok [hitRecentNaive, hitUndatedTrusted]
    ∧ parseDateStr (some "2026-10-11T08:00:00+00:00") =
        some { secs := 1791705600, offset := some 0 } := by
  refine ⟨by decide, by decide, by decide⟩

/-! ### Theorems about `_apply_time_decay` (claim C6) -/

/-- Published 2 hours before `now = 2024-01-08T00:00:00` (epoch 1704672000). -/
def hitFresh2h : ArticleHit :=
  { title := "2h", url := "https://a.example/f", snippet := "",
    published := some "2024-01-07T22:00:00" }

/-- Published 3 days before `now`. -/
def hitAge3d : ArticleHit :=
  { title := "3d", url := "https://a.example/g", snippet := "",
    published := some "2024-01-05" }

/-- Published 6 days before `now`. -/
def hitAge6d : ArticleHit :=
  { title := "6d", url := "https://a.example/h", snippet := "",
    published := some "2024-01-02T00:00:00" }

def hitUndated : ArticleHit :=
  { title := "nodate", url := "https://a.example/i", snippet := "",
    published := none }

/-- Claim C6: `_apply_time_decay` stable-sorts by descending freshness,
where freshness is `max(0, 1 - age_days/window_days)` for dated hits and
exactly `0.5` for undated hits; a hit younger than half the window scores
above `0.5` and one older scores below, so an undated hit sorts strictly
between them; concretely, in a 7-day window, 2 hours ago ranks above
3 days ago above 6 days ago, and an undated hit lands between a 2-hour-old
and a 6-day-old hit. -/
theorem time_decay_freshness_sort (hits : List ArticleHit) (days : Int) (now : Int)
    (hdays : 0 < days) :
    (applyTimeDecay now hits days).Perm hits
    ∧ (applyTimeDecay now hits days).Pairwise
        (fun a b => freshness now days b ≤ freshness now days a)
    ∧ (∀ q : ℚ, (applyTimeDecay now hits days).filter (fun h => freshness now days h = q) =
        hits.filter (fun h => freshness now days h = q))
    ∧ (∀ h : ArticleHit, parseDateStr h.published = none → freshness now days h = 1 / 2)
    ∧ (∀ (h : ArticleHit) (pub : PyDateTime), parseDateStr h.published = some pub →
        freshness now days h =
          max 0 (1 - ((now - (pub.secs - pub.offset.getD 0) : Int) : ℚ) / 86400 / (days : ℚ)))
    ∧ (∀ (h : ArticleHit) (pub : PyDateTime), parseDateStr h.published = some pub →
        ((now - (pub.secs - pub.offset.getD 0) : Int) : ℚ) / 86400 < (days : ℚ) / 2 →
        1 / 2 < freshness now days h)
    ∧ (∀ (h : ArticleHit) (pub : PyDateTime), parseDateStr h.published = some pub →
        (days : ℚ) / 2 < ((now - (pub.secs - pub.offset.getD 0) : Int) : ℚ) / 86400 →
        freshness now days h < 1 / 2)
    ∧ applyTimeDecay 1704672000 [hitAge6d, hitAge3d, hitFresh2h] 7 =
        [hitFresh2h, hitAge3d, hitAge6d]
    ∧ applyTimeDecay 1704672000 [hitUndated, hitAge6d, hitFresh2h] 7 =
        [hitFresh2h, hitUndated, hitAge6d] := by
  have hdq : (0 : ℚ) < (days : ℚ) := by exact_mod_cast hdays
  have hnotle : ¬ days ≤ 0 := not_le.mpr hdays
  have hunfold : applyTimeDecay now hits days =
      if hits = [] then hits else pySortDescBy (freshness now days) hits := by
    unfold applyTimeDecay
    by_cases hnil : hits = []
    · rw [if_pos (Or.inl hnil), if_pos hnil]
    · rw [if_neg (by simp [hnil, hnotle]), if_neg hnil]
  have hfresh : ∀ (h : ArticleHit) (pub : PyDateTime), parseDateStr h.published = some pub →
      freshness now days h =
        max 0 (1 - ((now - (pub.secs - pub.offset.getD 0) : Int) : ℚ) / 86400 / (days : ℚ)) := by
    intro h pub hp
    unfold freshness
    rw [hp]
    cases hoff : pub.offset with
    | none => simp [hoff]
    | some off => simp [hoff]
  have e2 : freshness 1704672000 7 hitFresh2h = 83 / 84 := by
    have hp : parseDateStr hitFresh2h.published =
        some { secs := 1704664800, offset := none } := by decide
    unfold freshness
    rw [hp]
    norm_num [max_def]
  have e3 : freshness 1704672000 7 hitAge3d = 4 / 7 := by
    have hp : parseDateStr hitAge3d.published =
        some { secs := 1704412800, offset := none } := by decide
    unfold freshness
    rw [hp]
    norm_num [max_def]
  have e6 : freshness 1704672000 7 hitAge6d = 1 / 7 := by
    have hp : parseDateStr hitAge6d.published =
        some { secs := 1704153600, offset := none } := by decide
    unfold freshness
    rw [hp]
    norm_num [max_def]
  have eu : freshness 1704672000 7 hitUndated = 1 / 2 := by
    have hp : parseDateStr hitUndated.published = none := by decide
    unfold freshness
    rw [hp]
  have hsortA : applyTimeDecay 1704672000 [hitAge6d, hitAge3d, hitFresh2h] 7 =
      [hitFresh2h, hitAge3d, hitAge6d] := by
    unfold applyTimeDecay
    rw [if_neg (by simp)]
    unfold pySortDescBy
    simp only [List.insertionSort, List.orderedInsert]
    norm_num [e2, e3, e6]
  have hsortB : applyTimeDecay 1704672000 [hitUndated, hitAge6d, hitFresh2h] 7 =
      [hitFresh2h, hitUndated, hitAge6d] := by
    unfold applyTimeDecay
    rw [if_neg (by simp)]
    unfold pySortDescBy
    simp only [List.insertionSort, List.orderedInsert]
    norm_num [e2, e6, eu]
  refine ⟨?_, ?_, ?_, ?_, hfresh, ?_, ?_, hsortA, hsortB⟩
  · rw [hunfold]
    by_cases hnil : hits = []
    · rw [if_pos hnil]
    · rw [if_neg hnil]
      exact pySortDescBy_perm _ hits
  · rw [hunfold]
    by_cases hnil : hits = []
    · rw [if_pos hnil, hnil]
      exact List.Pairwise.nil
    · rw [if_neg hnil]
      exact pySortDescBy_sorted _ hits
  · intro q
    rw [hunfold]
    by_cases hnil : hits = []
    · rw [if_pos hnil]
    · rw [if_neg hnil]
      exact pySortDescBy_stable _ q hits
  · intro h hp
    unfold freshness
    rw [hp]
  · intro h pub hp hage
    rw [hfresh h pub hp]
    set A : ℚ := ((now - (pub.secs - pub.offset.getD 0) : Int) : ℚ) / 86400 with hA
    have h1 : A / (days : ℚ) < 1 / 2 := by
      rw [div_lt_iff₀ hdq]
      linarith
    exact lt_max_of_lt_right (by linarith)
  · intro h pub hp hage
    rw [hfresh h pub hp]
    set A : ℚ := ((now - (pub.secs - pub.offset.getD 0) : Int) : ℚ) / 86400 with hA
    have h1 : 1 / 2 < A / (days : ℚ) := by
      rw [lt_div_iff₀ hdq]
      linarith
    exact max_lt (by norm_num) (by linarith)

/-- Witness for `time_decay_freshness_sort` at the concrete 7-day window. -/
theorem time_decay_freshness_sort_witness :
    (applyTimeDecay 1704672000 [hitAge6d, hitAge3d, hitFresh2h] 7).Perm
      [hitAge6d, hitAge3d, hitFresh2h] :=
  (time_decay_freshness_sort [hitAge6d, hitAge3d, hitFresh2h] 7 1704672000 (by norm_num)).1

/-! ### dedup.py and difflib

`difflib.SequenceMatcher(None, a, b).ratio()` is modelled from CPython's
`difflib`: `find_longest_match` runs the `j2len` dynamic program over the
window (rows in ascending `i`, columns in ascending `j`, strictly-greater
updates, so ties go to the smallest `i` then smallest `j`), skipping
columns whose element is "popular" (the autojunk rule: only when
`len(b) >= 200`, elements occurring more than `len(b)//100 + 1` times),
then extends the block over equal characters (the junk set itself is
empty because `isjunk=None`).  `ratio` is `2*M/T` over the total matched
size `M` of the recursively collected matching blocks.  The recursion is
fuelled; each recursive call strictly shrinks the window by at least one,
so `len(a)+len(b)+1` fuel is never exhausted. -/

/-- Autojunk popularity test on elements of `b` (`set_seq2`). -/
def isPopular (b : List Char) (c : Char) : Bool :=
  200 ≤ b.length && b.length / 100 + 1 < b.count c

/-- One row of the `j2len` dynamic program for `a[i] = aC`. -/
def flmRow (b : List Char) (blo bhi : Nat) (aC : Char) (prev : List Nat) : List Nat :=
  (List.range b.length).map fun j =>
    if blo ≤ j ∧ j < bhi ∧ b.getD j '\x00' = aC ∧ ¬ isPopular b aC then
      (if j = 0 then 0 else prev.getD (j - 1) 0) + 1
    else 0

/-- Scan a row in ascending `j`, updating the best block on strictly
longer runs. -/
def flmScan (i : Nat) (row : List Nat) (best : Nat × Nat × Nat) : Nat × Nat × Nat :=
  (List.range row.length).foldl
    (fun best j =>
      let k := row.getD j 0
      if best.2.2 < k then (i - (k - 1), j - (k - 1), k) else best)
    best

/-- The `j2len` phase of `find_longest_match` over the window. -/
def flmCore (a b : List Char) (alo ahi blo bhi : Nat) : Nat × Nat × Nat :=
  ((List.range' alo (ahi - alo)).foldl
    (fun (st : (Nat × Nat × Nat) × List Nat) i =>
      let row := flmRow b blo bhi (a.getD i '\x01') st.2
      (flmScan i row st.1, row))
    ((alo, blo, 0), List.replicate b.length 0)).1

/-- Backward extension over equal (non-junk) characters. -/
def extendBackGo (a b : List Char) (alo blo : Nat) :
    Nat → Nat × Nat × Nat → Nat × Nat × Nat
  | 0, st => st
  | fuel + 1, (besti, bestj, k) =>
    if alo < besti ∧ blo < bestj ∧
        a.getD (besti - 1) '\x00' = b.getD (bestj - 1) '\x01' then
      extendBackGo a b alo blo fuel (besti - 1, bestj - 1, k + 1)
    else (besti, bestj, k)

/-- Forward extension over equal (non-junk) characters. -/
def extendFwdGo (a b : List Char) (ahi bhi : Nat) :
    Nat → Nat × Nat × Nat → Nat × Nat × Nat
  | 0, st => st
  | fuel + 1, (besti, bestj, k) =>
    if besti + k < ahi ∧ bestj + k < bhi ∧
        a.getD (besti + k) '\x00' = b.getD (bestj + k) '\x01' then
      extendFwdGo a b ahi bhi fuel (besti, bestj, k + 1)
    else (besti, bestj, k)

/-- Model of `find_longest_match` (the junk extension loops are no-ops because
`isjunk=None` makes the junk set empty). -/
def findLongestMatch (a b : List Char) (alo ahi blo bhi : Nat) : Nat × Nat × Nat :=
  let core := flmCore a b alo ahi blo bhi
  let back := extendBackGo a b alo blo core.1 core
  extendFwdGo a b ahi bhi (ahi - (back.1 + back.2.2)) back

/-- Total size of the matching blocks (`get_matching_blocks` recursion;
only the sum of block sizes matters for `ratio`). -/
def matchTotalGo (a b : List Char) : Nat → Nat → Nat → Nat → Nat → Nat
  | 0, _, _, _, _ => 0
  | fuel + 1, alo, ahi, blo, bhi =>
    let m := findLongestMatch a b alo ahi blo bhi
    if m.2.2 = 0 then 0
    else m.2.2 + matchTotalGo a b fuel alo m.1 blo m.2.1 +
         matchTotalGo a b fuel (m.1 + m.2.2) ahi (m.2.1 + m.2.2) bhi

def matchTotal (a b : List Char) : Nat :=
  matchTotalGo a b (a.length + b.length + 1) 0 a.length 0 b.length

/-- Model of `SequenceMatcher.ratio()`: `2*M/T` (and 1.0 when both sequences are
empty).  Written with `Rat.divInt`; `ratio_eq_div` states the usual
division form. -/
def ratio (a b : List Char) : ℚ :=
  if a.length + b.length = 0 then 1
  else Rat.divInt (2 * matchTotal a b) (a.length + b.length)

theorem ratio_eq_div (a b : List Char) (h : a.length + b.length ≠ 0) :
    ratio a b = (2 * matchTotal a b : ℚ) / ((a.length : ℚ) + (b.length : ℚ)) := by
  rw [ratio, if_neg h, Rat.divInt_eq_div]
  push_cast
  ring

/-- Source `dedup.py`, `_title_similarity`: case-insensitive
`SequenceMatcher` ratio (ASCII lowering, as in the titles below). -/
def titleSimilarity (a b : String) : ℚ :=
  ratio (lowerChars a.data) (lowerChars b.data)

/-- Source `dedup.py`, `_SIMILARITY_THRESHOLD` (the float `0.6`). -/
def similarityThreshold : ℚ := 3 / 5

/-- The `max(group, key=...)` fold: Python's `max` keeps the current
element unless the next key is strictly greater, so the first maximum
wins. -/
def bestFold (acc : VerifiedArticle) (t : List VerifiedArticle) : VerifiedArticle :=
  t.foldl (fun acc x => if acc.content.length < x.content.length then x else acc) acc

/-- Source `dedup.py`, `_best_article` (never called on an empty group;
`content or ""` is the `content` string here). -/
def bestArticle : List VerifiedArticle → VerifiedArticle
  | [] => default
  | h :: t => bestFold h t

/-- The inner `for j in range(i+1, n)` scan of `deduplicate`: the later,
not-yet-assigned indices whose title is similar to title `i`. -/
def clusterDups (titles : List String) (t : ℚ) (assigned : List Nat) (i : Nat) :
    List Nat :=
  (List.range titles.length).filter fun j =>
    i < j ∧ j ∉ assigned ∧ t ≤ titleSimilarity (titles.getD i "") (titles.getD j "")

/-- One iteration of the outer clustering loop of `deduplicate`: skip
assigned seeds, otherwise emit the cluster `i :: dups` and mark all its
members assigned. -/
def clusterStep (titles : List String) (t : ℚ) (st : List (List Nat) × List Nat)
    (i : Nat) : List (List Nat) × List Nat :=
  if i ∈ st.2 then st
  else (st.1 ++ [i :: clusterDups titles t st.2 i], st.2 ++ i :: clusterDups titles t st.2 i)

/-- The clustering loop of `deduplicate`: for each unassigned `i` in
order, collect every later unassigned `j` whose title is similar to
title `i`. -/
def buildClusters (titles : List String) (t : ℚ) : List (List Nat) :=
  ((List.range titles.length).foldl (clusterStep titles t) ([], [])).1

/-- Source `dedup.py`, `deduplicate`. -/
def deduplicate (articles : List VerifiedArticle) (threshold : ℚ) :
    List VerifiedArticle :=
  if articles.length ≤ 1 then articles
  else
    (buildClusters (articles.map (·.title)) threshold).map fun c =>
      bestArticle (c.filterMap (articles.get? ·))

/-! ### Theorems about `deduplicate` (claims C2, C4) -/

/-- Short-content article whose title is similar to `artAB`'s. -/
def artA : VerifiedArticle :=
  { title := "alpha beta", url := "u1", snippet := "", content := "x" }

/-- Longest-content article; its title is similar to both `artA`'s
(ratio 5/8) and `artC`'s (ratio 2/3). -/
def artAB : VerifiedArticle :=
  { title := "alpha beta gamma delta", url := "u2", snippet := "", content := "xxxxx" }

/-- Article similar to `artAB` (2/3) but not to `artA` (4/7 < 3/5). -/
def artC : VerifiedArticle :=
  { title := "gamma delta", url := "u3", snippet := "", content := "yy" }

set_option maxRecDepth 8000 in
/-- Claim C2 counterexample: similarity is not transitive, so a second
`deduplicate` pass can merge two survivors of the first pass.  At the
default threshold 0.6, `deduplicate [artA, artAB, artC]` clusters
`{artA, artAB}` (keeping `artAB`) and leaves `artC` alone, but
`artAB` and `artC` are themselves similar, so the second pass collapses
the output `[artAB, artC]` to `[artAB]`. -/
theorem dedup_not_idempotent :
    deduplicate (deduplicate [artA, artAB, artC] (Rat.divInt 3 5)) (Rat.divInt 3 5) ≠
      deduplicate [artA, artAB, artC] (Rat.divInt 3 5)
    ∧ deduplicate [artA, artAB, artC] (Rat.divInt 3 5) = [artAB, artC]
    ∧ deduplicate [artAB, artC] (Rat.divInt 3 5) = [artAB]
    ∧ similarityThreshold = Rat.divInt 3 5 := by
  refine ⟨by decide, by decide, by decide, ?_⟩
  rw [similarityThreshold, Rat.divInt_eq_div]
  norm_num

theorem buildClusters_fold_dissimilar (titles : List String) (t : ℚ)
    (h : ∀ i j, i < j → j < titles.length →
      titleSimilarity (titles.getD i "") (titles.getD j "") < t)
    (k : Nat) :
    (List.range k).foldl (clusterStep titles t) ([], []) =
      ((List.range k).map (fun i => [i]), List.range k) := by
  induction k with
  | zero => rfl
  | succ n ih =>
    rw [List.range_succ, List.foldl_append, ih, List.foldl_cons, List.foldl_nil]
    unfold clusterStep
    rw [if_neg (by simp)]
    have hdups : clusterDups titles t (List.range n) n = [] := by
      rw [clusterDups, List.filter_eq_nil_iff]
      intro j hj
      simp only [List.mem_range] at hj
      simp only [decide_eq_true_eq, not_and]
      intro hnj _
      exact not_le.mpr (h n j hnj hj)
    simp only [hdups, List.map_append, List.range_succ, List.map_cons, List.map_nil]

theorem map_singleton_best (arts : List VerifiedArticle) :
    ((List.range arts.length).map (fun i => [i])).map
      (fun c => bestArticle (c.filterMap (arts.get? ·))) = arts := by
  rw [List.map_map]
  apply List.ext_getElem (by simp)
  intro i h1 h2
  simp only [List.getElem_map, List.getElem_range, Function.comp_apply]
  have hget : arts[i]? = some arts[i] := List.getElem?_eq_getElem h2
  simp [List.filterMap_cons, hget, bestArticle, bestFold]

/-- Claim C2 amended: on a list whose titles are pairwise below the
threshold, `deduplicate` is the identity (so it is idempotent whenever
the survivors of a first pass are pairwise dissimilar). -/
theorem dedup_pairwise_dissimilar_identity (arts : List VerifiedArticle) (t : ℚ)
    (h : ∀ i j, i < j → j < arts.length →
      titleSimilarity ((arts.map (·.title)).getD i "")
        ((arts.map (·.title)).getD j "") < t) :
    deduplicate arts t = arts := by
  unfold deduplicate
  by_cases hlen : arts.length ≤ 1
  · rw [if_pos hlen]
  · rw [if_neg hlen]
    unfold buildClusters
    rw [buildClusters_fold_dissimilar (arts.map (·.title)) t
      (by simpa [List.length_map] using h) (arts.map (·.title)).length]
    rw [List.length_map]
    exact map_singleton_best arts

set_option maxRecDepth 8000 in
/-- Witness for `dedup_pairwise_dissimilar_identity`: two clearly
dissimilar titles at the default threshold. -/
theorem dedup_pairwise_dissimilar_identity_witness :
    deduplicate [artA, artC] (Rat.divInt 3 5) = [artA, artC] := by
  apply dedup_pairwise_dissimilar_identity
  intro i j hij hj
  have hj2 : j < 2 := by simpa using hj
  interval_cases j
  · omega
  · interval_cases i
    decide

/-- Short-content seed article (title similar to `ordC`'s, not `ordB`'s). -/
def ordA : VerifiedArticle :=
  { title := "alpha beta", url := "u1", snippet := "", content := "x" }

/-- Dissimilar middle article. -/
def ordB : VerifiedArticle :=
  { title := "gamma delta", url := "u2", snippet := "", content := "zzz" }

/-- Similar to `ordA` (ratio 10/11) with the longest content. -/
def ordC : VerifiedArticle :=
  { title := "alpha beta x", url := "u3", snippet := "", content := "xxxxx" }

set_option maxRecDepth 8000 in
/-- Claim C4 counterexample: on `[ordA, ordB, ordC]` the first cluster
is `{ordA, ordC}` whose representative is `ordC`, and the second is
`{ordB}` — so the output is `[ordC, ordB]` even though `ordB` precedes
`ordC` in the input: the survivors appear in cluster order, not in their
own input order. -/
theorem dedup_order_not_preserved :
    deduplicate [ordA, ordB, ordC] (Rat.divInt 3 5) = [ordC, ordB]
    ∧ [ordA, ordB, ordC].indexOf ordB < [ordA, ordB, ordC].indexOf ordC
    ∧ (deduplicate [ordA, ordB, ordC] (Rat.divInt 3 5)).indexOf ordC <
        (deduplicate [ordA, ordB, ordC] (Rat.divInt 3 5)).indexOf ordB := by
  refine ⟨by decide, by decide, by decide⟩

theorem bestFold_spec (t : List VerifiedArticle) (acc : VerifiedArticle) :
    (bestFold acc t = acc ∧ ∀ x ∈ t, x.content.length ≤ acc.content.length)
    ∨ (∃ i, ∃ hi : i < t.length, bestFold acc t = t.get ⟨i, hi⟩
        ∧ acc.content.length < (bestFold acc t).content.length
        ∧ (∀ x ∈ t, x.content.length ≤ (bestFold acc t).content.length)
        ∧ (∀ j (hj : j < t.length), j < i →
            (t.get ⟨j, hj⟩).content.length < (bestFold acc t).content.length)) := by
  induction t generalizing acc with
  | nil => exact Or.inl ⟨rfl, by simp⟩
  | cons x xs ih =>
    have hstep : bestFold acc (x :: xs) =
        bestFold (if acc.content.length < x.content.length then x else acc) xs := rfl
    by_cases hx : acc.content.length < x.content.length
    · rw [hstep, if_pos hx]
      rcases ih x with ⟨heq, hall⟩ | ⟨i, hi, heq, hlt, hall, hbefore⟩
      · refine Or.inr ⟨0, by simp, ?_, ?_, ?_, ?_⟩
        · simpa using heq
        · rw [heq]; exact hx
        · intro y hy
          rw [heq]
          rcases List.mem_cons.mp hy with rfl | hy2
          · exact le_refl _
          · exact hall y hy2
        · intro j hj hj0
          omega
      · refine Or.inr ⟨i + 1, by simpa using Nat.succ_lt_succ hi, by simpa using heq, ?_, ?_, ?_⟩
        · exact lt_trans hx hlt
        · intro y hy
          rcases List.mem_cons.mp hy with rfl | hy2
          · exact le_of_lt hlt
          · exact hall y hy2
        · intro j hj hji
          match j, hj with
          | 0, _ => exact hlt
          | j' + 1, hj' => exact hbefore j' (by omega) (by omega)
    · rw [hstep, if_neg hx]
      rcases ih acc with ⟨heq, hall⟩ | ⟨i, hi, heq, hlt, hall, hbefore⟩
      · refine Or.inl ⟨heq, ?_⟩
        intro y hy
        rcases List.mem_cons.mp hy with rfl | hy2
        · exact not_lt.mp hx
        · exact hall y hy2
      · refine Or.inr ⟨i + 1, by simpa using Nat.succ_lt_succ hi, by simpa using heq, hlt, ?_, ?_⟩
        · intro y hy
          rcases List.mem_cons.mp hy with rfl | hy2
          · exact le_trans (not_lt.mp hx) (le_of_lt hlt)
          · exact hall y hy2
        · intro j hj hji
          match j, hj with
          | 0, _ => exact lt_of_le_of_lt (not_lt.mp hx) hlt
          | j' + 1, hj' => exact hbefore j' (by omega) (by omega)

/-- Lemma: `_best_article` returns the first article of maximal content length. -/
theorem bestArticle_first_longest (g : List VerifiedArticle) (hg : g ≠ []) :
    ∃ i, ∃ hi : i < g.length, bestArticle g = g.get ⟨i, hi⟩
      ∧ (∀ j (hj : j < g.length),
          (g.get ⟨j, hj⟩).content.length ≤ (bestArticle g).content.length)
      ∧ (∀ j (hj : j < g.length), j < i →
          (g.get ⟨j, hj⟩).content.length < (bestArticle g).content.length) := by
  match g, hg with
  | h :: t, _ =>
    have hb : bestArticle (h :: t) = bestFold h t := rfl
    rcases bestFold_spec t h with ⟨heq, hall⟩ | ⟨i, hi, heq, hlt, hall, hbefore⟩
    · refine ⟨0, by simp, by simpa [hb] using heq, ?_, ?_⟩
      · intro j hj
        rw [hb, heq]
        match j, hj with
        | 0, _ => exact le_refl _
        | j' + 1, hj' => exact hall _ (by simp [List.get])
      · intro j hj hj0
        omega
    · refine ⟨i + 1, by simpa using Nat.succ_lt_succ hi, by simpa [hb] using heq, ?_, ?_⟩
      · intro j hj
        rw [hb]
        match j, hj with
        | 0, _ => exact le_of_lt hlt
        | j' + 1, hj' => exact hall _ (by simp [List.get])
      · intro j hj hji
        rw [hb]
        match j, hj with
        | 0, _ => exact hlt
        | j' + 1, hj' => exact hbefore j' (by omega) (by omega)

/-- Invariant of the clustering fold: every emitted cluster is nonempty,
its members beyond the seed are later similar indices, and cluster seeds
are strictly increasing. -/
theorem buildClusters_fold_inv (titles : List String) (t : ℚ) (k : Nat) :
    (∀ c ∈ ((List.range k).foldl (clusterStep titles t) ([], [])).1,
      ∃ hd tl, c = hd :: tl ∧ hd < k ∧ ∀ j ∈ tl, hd < j ∧ j < titles.length ∧
        t ≤ titleSimilarity (titles.getD hd "") (titles.getD j ""))
    ∧ ((((List.range k).foldl (clusterStep titles t) ([], [])).1).map
        (fun c => c.headD 0)).Pairwise (· < ·) := by
  induction k with
  | zero => exact ⟨by simp, by simp⟩
  | succ n ih =>
    rw [List.range_succ, List.foldl_append, List.foldl_cons, List.foldl_nil]
    obtain ⟨ih1, ih2⟩ := ih
    set st := (List.range n).foldl (clusterStep titles t) ([], []) with hst
    unfold clusterStep
    by_cases hmem : n ∈ st.2
    · rw [if_pos hmem]
      refine ⟨fun c hc => ?_, ih2⟩
      obtain ⟨hd, tl, hc1, hc2, hc3⟩ := ih1 c hc
      exact ⟨hd, tl, hc1, by omega, hc3⟩
    · rw [if_neg hmem]
      constructor
      · intro c hc
        rcases List.mem_append.mp hc with hold | hnew
        · obtain ⟨hd, tl, hc1, hc2, hc3⟩ := ih1 c hold
          exact ⟨hd, tl, hc1, by omega, hc3⟩
        · rw [List.mem_singleton] at hnew
          subst hnew
          refine ⟨n, _, rfl, by omega, ?_⟩
          intro j hj
          rw [clusterDups, List.mem_filter] at hj
          obtain ⟨hjr, hjp⟩ := hj
          rw [List.mem_range] at hjr
          simp only [decide_eq_true_eq] at hjp
          exact ⟨hjp.1, hjr, hjp.2.2⟩
      · rw [List.map_append, List.pairwise_append]
        refine ⟨ih2, by simp, ?_⟩
        intro a ha b hb
        simp only [List.map_cons, List.map_nil, List.mem_singleton] at hb
        subst hb
        rw [List.mem_map] at ha
        obtain ⟨c, hc, hhead⟩ := ha
        obtain ⟨hd, tl, hc1, hc2, _⟩ := ih1 c hc
        rw [hc1] at hhead
        simp only [List.headD_cons] at hhead
        omega

/-- Claim C4 amended: `deduplicate` maps each cluster to the first
article of maximal content length in it; clusters consist of a seed plus
later similar indices, and the output lists representatives in the order
the clusters were seeded (ascending first-seen member) — which the
counterexample shows can differ from the representatives' own input
order. -/
theorem dedup_keeps_first_longest (arts : List VerifiedArticle) (t : ℚ)
    (h2 : 2 ≤ arts.length) :
    deduplicate arts t =
      (buildClusters (arts.map (·.title)) t).map
        (fun c => bestArticle (c.filterMap (arts.get? ·)))
    ∧ (∀ c ∈ buildClusters (arts.map (·.title)) t,
        ∃ hd tl, c = hd :: tl ∧ hd < arts.length ∧
          ∀ j ∈ tl, hd < j ∧ j < arts.length ∧
            t ≤ titleSimilarity ((arts.map (·.title)).getD hd "")
              ((arts.map (·.title)).getD j ""))
    ∧ ((buildClusters (arts.map (·.title)) t).map (fun c => c.headD 0)).Pairwise (· < ·)
    ∧ (∀ g : List VerifiedArticle, g ≠ [] →
        ∃ i, ∃ hi : i < g.length, bestArticle g = g.get ⟨i, hi⟩
          ∧ (∀ j (hj : j < g.length),
              (g.get ⟨j, hj⟩).content.length ≤ (bestArticle g).content.length)
          ∧ (∀ j (hj : j < g.length), j < i →
              (g.get ⟨j, hj⟩).content.length < (bestArticle g).content.length)) := by
  have hinv := buildClusters_fold_inv (arts.map (·.title)) t (arts.map (·.title)).length
  refine ⟨?_, ?_, ?_, bestArticle_first_longest⟩
  · unfold deduplicate
    rw [if_neg (by omega)]
  · intro c hc
    obtain ⟨hd, tl, hc1, hc2, hc3⟩ := hinv.1 c hc
    rw [List.length_map] at hc2
    refine ⟨hd, tl, hc1, hc2, ?_⟩
    intro j hj
    obtain ⟨hj1, hj2, hj3⟩ := hc3 j hj
    rw [List.length_map] at hj2
    exact ⟨hj1, hj2, hj3⟩
  · exact hinv.2

set_option maxRecDepth 8000 in
/-- Witness for `dedup_keeps_first_longest` at the three-article input
of the counterexample. -/
theorem dedup_keeps_first_longest_witness :
    deduplicate [ordA, ordB, ordC] (Rat.divInt 3 5) =
      (buildClusters ([ordA, ordB, ordC].map (·.title)) (Rat.divInt 3 5)).map
        (fun c => bestArticle (c.filterMap ([ordA, ordB, ordC].get? ·))) :=
  (dedup_keeps_first_longest [ordA, ordB, ordC] (Rat.divInt 3 5) (by decide)).1

/-! ### Theorems about `_add_utm` (claim C7) -/

/-- A string consisting of ASCII characters only. -/
def strAscii (s : String) : Prop := ∀ c ∈ s.data, c.toNat < 128

instance (s : String) : Decidable (strAscii s) := by
  unfold strAscii
  infer_instance

theorem unquotePlus_cons_plus (r : List Char) :
    unquotePlus ('+' :: r) = ' ' :: unquotePlus r := by
  match r with
  | [] => rfl
  | [x] => rfl
  | x :: y :: r2 => simp [unquotePlus]

theorem unquotePlus_cons_other (c : Char) (r : List Char)
    (hp : c ≠ '+') (hq : c ≠ '%') :
    unquotePlus (c :: r) = c :: unquotePlus r := by
  match r with
  | [] => simp [unquotePlus, hp, hq]
  | [x] => simp [unquotePlus, hp, hq]
  | x :: y :: r2 => simp [unquotePlus, hp, hq]

theorem unquotePlus_cons_pct (h1 h2 : Char) (r : List Char) (v1 v2 : Nat)
    (e1 : hexVal h1 = some v1) (e2 : hexVal h2 = some v2) :
    unquotePlus ('%' :: h1 :: h2 :: r) =
      (if 16 * v1 + v2 < 128 then Char.ofNat (16 * v1 + v2) else '�') ::
        unquotePlus r := by
  simp [unquotePlus, e1, e2]

theorem hexVal_hexDigitUpper (n : Nat) (h : n < 16) :
    hexVal (hexDigitUpper n) = some n := by
  interval_cases n <;> decide

theorem alwaysSafe_ne_plus_pct (c : Char) (h : alwaysSafe c = true) :
    c ≠ '+' ∧ c ≠ '%' := by
  constructor
  · intro he
    subst he
    exact absurd h (by decide)
  · intro he
    subst he
    exact absurd h (by decide)

/-- Encoding shape: `quote_plus` of an ASCII character encodes into `'+'`, the character
itself, or a single `%XX` escape with `XX < 128`. -/
theorem quotePlusChar_ascii (c : Char) (h : c.toNat < 128) :
    quotePlusChar c = ['+'] ∧ c = ' '
    ∨ quotePlusChar c = [c] ∧ alwaysSafe c = true
    ∨ quotePlusChar c =
        ['%', hexDigitUpper (c.toNat / 16), hexDigitUpper (c.toNat % 16)] := by
  unfold quotePlusChar
  by_cases hsp : c = ' '
  · exact Or.inl ⟨by rw [if_pos hsp], hsp⟩
  · rw [if_neg hsp]
    by_cases hsafe : alwaysSafe c
    · exact Or.inr (Or.inl ⟨by rw [if_pos hsafe], hsafe⟩)
    · refine Or.inr (Or.inr ?_)
      rw [if_neg hsafe]
      have : utf8Bytes c = [c.toNat] := by
        unfold utf8Bytes
        rw [if_pos (by omega)]
      rw [this]
      rfl

theorem unquotePlus_quotePlusChar (c : Char) (h : c.toNat < 128) (rest : List Char) :
    unquotePlus (quotePlusChar c ++ rest) = c :: unquotePlus rest := by
  rcases quotePlusChar_ascii c h with ⟨he, hsp⟩ | ⟨he, hsafe⟩ | he
  · rw [he, hsp]
    exact unquotePlus_cons_plus rest
  · rw [he]
    obtain ⟨h1, h2⟩ := alwaysSafe_ne_plus_pct c hsafe
    exact unquotePlus_cons_other c rest h1 h2
  · rw [he]
    have hd : c.toNat / 16 < 16 := by omega
    have hm : c.toNat % 16 < 16 := by omega
    rw [List.cons_append, List.cons_append, List.cons_append, List.nil_append,
      unquotePlus_cons_pct _ _ _ _ _ (hexVal_hexDigitUpper _ hd) (hexVal_hexDigitUpper _ hm)]
    have hval : 16 * (c.toNat / 16) + c.toNat % 16 = c.toNat := by omega
    rw [hval, if_pos h]
    congr 1
    exact Char.ofNat_toNat c

/-- Decoding inverts encoding on ASCII strings. -/
theorem unquotePlus_quotePlus (l : List Char) (h : ∀ c ∈ l, c.toNat < 128) :
    unquotePlus (quotePlus l) = l := by
  induction l with
  | nil => rfl
  | cons c r ih =>
    have : quotePlus (c :: r) = quotePlusChar c ++ quotePlus r := by
      simp [quotePlus]
    rw [this, unquotePlus_quotePlusChar c (h c (List.mem_cons_self c r)) _,
      ih fun x hx => h x (List.mem_cons_of_mem c hx)]

theorem char_toNat_lt (c : Char) : c.toNat < 1114112 := by
  rcases c.valid with h | ⟨_, h⟩
  · exact lt_trans h (by norm_num)
  · exact h

theorem utf8Bytes_lt (c : Char) : ∀ b ∈ utf8Bytes c, b < 256 := by
  intro b hb
  have hc := char_toNat_lt c
  unfold utf8Bytes at hb
  split at hb
  · simp only [List.mem_singleton] at hb
    omega
  · split at hb
    · simp only [List.mem_cons, List.mem_singleton, List.not_mem_nil, or_false] at hb
      rcases hb with rfl | rfl <;> omega
    · split at hb
      · simp only [List.mem_cons, List.mem_singleton, List.not_mem_nil, or_false] at hb
        rcases hb with rfl | rfl | rfl <;> omega
      · simp only [List.mem_cons, List.mem_singleton, List.not_mem_nil, or_false] at hb
        rcases hb with rfl | rfl | rfl | rfl <;> omega

/-- Every character emitted by `quote_plus` is `'+'`, a safe character,
`'%'`, or an upper hex digit. -/
theorem mem_quotePlusChar (c x : Char) (hx : x ∈ quotePlusChar c) :
    x = '+' ∨ alwaysSafe x = true ∨ x = '%' ∨ (hexVal x).isSome := by
  unfold quotePlusChar at hx
  by_cases hsp : c = ' '
  · rw [if_pos hsp, List.mem_singleton] at hx
    exact Or.inl hx
  · rw [if_neg hsp] at hx
    by_cases hsafe : alwaysSafe c
    swap
    · rw [if_neg hsafe] at hx
      rw [List.mem_flatMap] at hx
      obtain ⟨b, hb, hxb⟩ := hx
      have hblt := utf8Bytes_lt c b hb
      rcases List.mem_cons.mp hxb with rfl | hx2
      · exact Or.inr (Or.inr (Or.inl rfl))
      · rcases List.mem_cons.mp hx2 with rfl | hx3
        · refine Or.inr (Or.inr (Or.inr ?_))
          rw [hexVal_hexDigitUpper _ (by omega)]
          rfl
        · simp only [List.mem_singleton] at hx3
          subst hx3
          refine Or.inr (Or.inr (Or.inr ?_))
          rw [hexVal_hexDigitUpper _ (by omega)]
          rfl
    rw [if_pos hsafe, List.mem_singleton] at hx
    subst hx
    exact Or.inr (Or.inl hsafe)

theorem amp_not_mem_quotePlus (l : List Char) : '&' ∉ quotePlus l := by
  intro hmem
  rw [quotePlus, List.mem_flatMap] at hmem
  obtain ⟨c, _, hc⟩ := hmem
  rcases mem_quotePlusChar c '&' hc with h | h | h | h
  · exact absurd h (by decide)
  · exact absurd h (by decide)
  · exact absurd h (by decide)
  · exact absurd h (by decide)

theorem eq_not_mem_quotePlus (l : List Char) : '=' ∉ quotePlus l := by
  intro hmem
  rw [quotePlus, List.mem_flatMap] at hmem
  obtain ⟨c, _, hc⟩ := hmem
  rcases mem_quotePlusChar c '=' hc with h | h | h | h
  · exact absurd h (by decide)
  · exact absurd h (by decide)
  · exact absurd h (by decide)
  · exact absurd h (by decide)

theorem quotePlusChar_ne_nil (c : Char) : quotePlusChar c ≠ [] := by
  unfold quotePlusChar
  split
  · exact (by simp)
  · split
    · exact (by simp)
    · have h1 : utf8Bytes c ≠ [] := by
        unfold utf8Bytes
        split
        · exact (by simp)
        · split
          · exact (by simp)
          · split
            · exact (by simp)
            · exact (by simp)
      intro hflat
      match he : utf8Bytes c, h1 with
      | b :: bs, _ =>
        rw [he] at hflat
        simp [List.flatMap] at hflat

theorem quotePlus_ne_nil (l : List Char) (h : l ≠ []) : quotePlus l ≠ [] := by
  match l, h with
  | c :: r, _ =>
    rw [quotePlus, List.flatMap_cons]
    intro happ
    rcases List.append_eq_nil.mp happ with ⟨h1, _⟩
    exact quotePlusChar_ne_nil c h1

theorem unquotePlus_ne_nil (l : List Char) (h : l ≠ []) : unquotePlus l ≠ [] := by
  match l, h with
  | c :: r, _ =>
    by_cases hp : c = '+'
    · subst hp
      rw [unquotePlus_cons_plus]
      exact (by simp)
    · by_cases hq : c = '%'
      · subst hq
        match r with
        | [] => simp [unquotePlus]
        | [x] => simp [unquotePlus]
        | h1 :: h2 :: r2 =>
          match e1 : hexVal h1, e2 : hexVal h2 with
          | some v1, some v2 =>
            rw [unquotePlus_cons_pct _ _ _ _ _ e1 e2]
            exact (by simp)
          | some v1, none => simp [unquotePlus, e1, e2]
          | none, some v2 => simp [unquotePlus, e1, e2]
          | none, none => simp [unquotePlus, e1, e2]
      · rw [unquotePlus_cons_other c r hp hq]
        exact (by simp)

/-- Splitting a separator-free list returns it whole. -/
theorem splitOnChar_no_sep (sep : Char) (l : List Char) (h : sep ∉ l) :
    splitOnChar sep l = [l] := by
  induction l with
  | nil => rfl
  | cons c r ih =>
    have hc : c ≠ sep := fun he => h (he ▸ List.mem_cons_self c r)
    have hr : sep ∉ r := fun hm => h (List.mem_cons_of_mem c hm)
    rw [splitOnChar, ih hr]
    simp [hc]

theorem splitOnChar_ne_nil (sep : Char) (l : List Char) : splitOnChar sep l ≠ [] := by
  induction l with
  | nil => simp [splitOnChar]
  | cons c r ih =>
    rw [splitOnChar]
    cases hsp : splitOnChar sep r with
    | nil => exact absurd hsp ih
    | cons hh tt =>
      dsimp only
      split <;> simp

theorem splitOnChar_append_sep (sep : Char) (a b : List Char) (h : sep ∉ a) :
    splitOnChar sep (a ++ sep :: b) = a :: splitOnChar sep b := by
  induction a with
  | nil =>
    rw [List.nil_append]
    match hsb : splitOnChar sep b, splitOnChar_ne_nil sep b with
    | hh :: tt, _ =>
      rw [splitOnChar, hsb]
      simp
  | cons c r ih =>
    have hc : c ≠ sep := fun he => h (he ▸ List.mem_cons_self c r)
    have hr : sep ∉ r := fun hm => h (List.mem_cons_of_mem c hm)
    rw [List.cons_append, splitOnChar, ih hr]
    simp [hc]

theorem splitOnChar_joinSep (sep : Char) (parts : List (List Char))
    (hne : parts ≠ []) (h : ∀ p ∈ parts, sep ∉ p) :
    splitOnChar sep (joinSep sep parts) = parts := by
  induction parts with
  | nil => exact absurd rfl hne
  | cons p ps ih =>
    cases ps with
    | nil =>
      rw [joinSep]
      exact splitOnChar_no_sep sep p (h p (List.mem_cons_self p []))
    | cons q qs =>
      have hq : splitOnChar sep (joinSep sep (q :: qs)) = q :: qs :=
        ih (List.cons_ne_nil q qs) (fun x hx => h x (List.mem_cons_of_mem p hx))
      rw [joinSep, splitOnChar_append_sep sep p _ (h p (List.mem_cons_self p _)), hq]
      exact fun hfalse => List.noConfusion hfalse

theorem splitFirstChar_append_sep (sep : Char) (a b : List Char) (h : sep ∉ a) :
    splitFirstChar sep (a ++ sep :: b) = some (a, b) := by
  induction a with
  | nil => simp [splitFirstChar]
  | cons c r ih =>
    have hc : c ≠ sep := fun he => h (he ▸ List.mem_cons_self c r)
    have hr : sep ∉ r := fun hm => h (List.mem_cons_of_mem c hm)
    rw [List.cons_append, splitFirstChar, if_neg hc, ih hr]
    rfl

/-- The (key, value) pair sequence a dict of lists denotes. -/
def pairsOf (D : List (String × List String)) : List (String × String) :=
  D.flatMap fun p => p.2.map fun v => (p.1, v)

/-- Well-formedness of a `parse_qs`-style dict for the round-trip:
distinct keys, nonempty ASCII values, ASCII keys. -/
def dictOk (D : List (String × List String)) : Prop :=
  (D.map Prod.fst).Nodup ∧
  ∀ p ∈ D, strAscii p.1 ∧ p.2 ≠ [] ∧ ∀ v ∈ p.2, v ≠ "" ∧ strAscii v

/-- One encoded `name=value` part. -/
def encPair (k v : String) : List Char :=
  quotePlus k.data ++ '=' :: quotePlus v.data

theorem amp_not_mem_encPair (k v : String) : '&' ∉ encPair k v := by
  intro hm
  rcases List.mem_append.mp hm with h | h
  · exact amp_not_mem_quotePlus _ h
  · rcases List.mem_cons.mp h with h2 | h2
    · exact absurd h2 (by decide)
    · exact amp_not_mem_quotePlus _ h2

/-- The decoding applied by `parse_qsl` to one raw part. -/
def decodePart (nv : List Char) : Option (String × String) :=
  if nv = [] then none
  else
    match splitFirstChar '=' nv with
    | none => none
    | some (n, v) =>
      if v = [] then none else some (⟨unquotePlus n⟩, ⟨unquotePlus v⟩)

theorem parseQsl_eq_filterMap (qs : String) :
    parseQsl qs = (splitOnChar '&' qs.data).filterMap decodePart := by
  rfl

theorem decodePart_encPair (k v : String) (hv : v ≠ "")
    (hka : strAscii k) (hva : strAscii v) :
    decodePart (encPair k v) = some (k, v) := by
  have hne : encPair k v ≠ [] := by
    unfold encPair
    intro he
    rcases List.append_eq_nil.mp he with ⟨_, h2⟩
    exact List.noConfusion h2
  unfold decodePart
  rw [if_neg hne]
  unfold encPair
  rw [splitFirstChar_append_sep _ _ _ (eq_not_mem_quotePlus k.data)]
  have hvq : quotePlus v.data ≠ [] := by
    apply quotePlus_ne_nil
    intro he
    exact hv (by cases v; simp_all)
  dsimp only
  rw [if_neg hvq]
  rw [unquotePlus_quotePlus k.data hka, unquotePlus_quotePlus v.data hva]

theorem filterMap_decode_map_enc (k : String) (vs : List String)
    (hk : strAscii k) (hvs : ∀ v ∈ vs, v ≠ "" ∧ strAscii v) :
    (vs.map fun v => encPair k v).filterMap decodePart = vs.map fun v => (k, v) := by
  induction vs with
  | nil => rfl
  | cons v vs ih =>
    rw [List.map_cons, List.map_cons]
    have hv := hvs v (List.mem_cons_self v vs)
    rw [List.filterMap_cons_some (decodePart_encPair k v hv.1 hk hv.2)]
    rw [ih fun w hw => hvs w (List.mem_cons_of_mem v hw)]

theorem filterMap_decode_encoded (D : List (String × List String))
    (hD : ∀ p ∈ D, strAscii p.1 ∧ ∀ v ∈ p.2, v ≠ "" ∧ strAscii v) :
    (D.flatMap fun p => p.2.map fun v => encPair p.1 v).filterMap decodePart =
      pairsOf D := by
  induction D with
  | nil => rfl
  | cons p D' ih =>
    rw [List.flatMap_cons, List.filterMap_append, pairsOf, List.flatMap_cons]
    have hp := hD p (List.mem_cons_self p D')
    rw [filterMap_decode_map_enc p.1 p.2 hp.1 hp.2,
      ih fun x hx => hD x (List.mem_cons_of_mem p hx)]
    rfl

/-- Round trip: `parse_qsl(urlencode(D, doseq=True))` recovers exactly the pairs of a
well-formed dict. -/
theorem parseQsl_urlencode (D : List (String × List String))
    (hD : ∀ p ∈ D, strAscii p.1 ∧ ∀ v ∈ p.2, v ≠ "" ∧ strAscii v) :
    parseQsl (urlencodeDoseq D) = pairsOf D := by
  rw [parseQsl_eq_filterMap]
  have hdata : (urlencodeDoseq D).data =
      joinSep '&' (D.flatMap fun p => p.2.map fun v => encPair p.1 v) := rfl
  rw [hdata]
  by_cases hnil : (D.flatMap fun p => p.2.map fun v => encPair p.1 v) = []
  · rw [hnil]
    have hpairs : pairsOf D = [] := by
      rw [pairsOf, List.flatMap_eq_nil_iff]
      rw [List.flatMap_eq_nil_iff] at hnil
      intro p hp
      have := hnil _ hp
      rw [List.map_eq_nil_iff] at this ⊢
      exact this
    rw [hpairs]
    rfl
  · rw [splitOnChar_joinSep '&' _ hnil]
    · exact filterMap_decode_encoded D hD
    · intro part hpart
      rw [List.mem_flatMap] at hpart
      obtain ⟨p, _, hmem⟩ := hpart
      rw [List.mem_map] at hmem
      obtain ⟨v, _, rfl⟩ := hmem
      exact amp_not_mem_encPair p.1 v

theorem dictAdd_not_mem (acc : List (String × List String)) (n v : String)
    (h : ∀ p ∈ acc, p.1 ≠ n) : dictAdd acc n v = acc ++ [(n, [v])] := by
  induction acc with
  | nil => rfl
  | cons p rest ih =>
    obtain ⟨k, vs⟩ := p
    rw [dictAdd, if_neg (h (k, vs) (List.mem_cons_self _ _)),
      ih fun q hq => h q (List.mem_cons_of_mem _ hq)]
    rfl

theorem dictAdd_mem_last (acc : List (String × List String)) (n v : String)
    (ws : List String) (h : ∀ p ∈ acc, p.1 ≠ n) :
    dictAdd (acc ++ [(n, ws)]) n v = acc ++ [(n, ws ++ [v])] := by
  induction acc with
  | nil => simp [dictAdd]
  | cons p rest ih =>
    obtain ⟨k, vs⟩ := p
    rw [List.cons_append, dictAdd, if_neg (h (k, vs) (List.mem_cons_self _ _)),
      ih fun q hq => h q (List.mem_cons_of_mem _ hq)]
    rfl

theorem fold_dictAdd_group (n : String) (vs : List String)
    (acc : List (String × List String)) (ws : List String)
    (h : ∀ p ∈ acc, p.1 ≠ n) :
    (vs.map fun v => (n, v)).foldl (fun a pr => dictAdd a pr.1 pr.2)
      (acc ++ [(n, ws)]) = acc ++ [(n, ws ++ vs)] := by
  induction vs generalizing ws with
  | nil => simp
  | cons v vs ih =>
    rw [List.map_cons, List.foldl_cons]
    have : dictAdd (acc ++ [(n, ws)]) n v = acc ++ [(n, ws ++ [v])] :=
      dictAdd_mem_last acc n v ws h
    rw [this, ih (ws ++ [v])]
    simp

theorem fold_dictAdd_pairs (D : List (String × List String))
    (acc : List (String × List String))
    (hnd : ∀ p ∈ acc, ∀ q ∈ D, p.1 ≠ q.1)
    (hDnd : (D.map Prod.fst).Nodup)
    (hvals : ∀ p ∈ D, p.2 ≠ []) :
    (pairsOf D).foldl (fun a pr => dictAdd a pr.1 pr.2) acc = acc ++ D := by
  induction D generalizing acc with
  | nil => simp [pairsOf]
  | cons p D' ih =>
    obtain ⟨k, vs⟩ := p
    match vs, hvals (k, vs) (List.mem_cons_self _ _) with
    | v :: vs', _ =>
      rw [pairsOf, List.flatMap_cons, List.foldl_append, List.map_cons, List.foldl_cons]
      have hk : ∀ q ∈ acc, q.1 ≠ k := fun q hq =>
        hnd q hq (k, v :: vs') (List.mem_cons_self _ _)
      have h1 : dictAdd acc k v = acc ++ [(k, [v])] :=
        dictAdd_not_mem acc k v hk
      dsimp only
      rw [h1, fold_dictAdd_group k vs' acc [v] hk]
      have hknd : k ∉ D'.map Prod.fst := by
        rw [List.map_cons] at hDnd
        exact (List.nodup_cons.mp hDnd).1
      have h2 : ∀ q ∈ acc ++ [(k, v :: vs')], ∀ r ∈ D', q.1 ≠ r.1 := by
        intro q hq r hr
        rcases List.mem_append.mp hq with hq1 | hq2
        · exact hnd q hq1 r (List.mem_cons_of_mem _ hr)
        · rw [List.mem_singleton] at hq2
          subst hq2
          intro he
          apply hknd
          have : r.1 ∈ D'.map Prod.fst := List.mem_map_of_mem Prod.fst hr
          simpa [← he] using this
      have hDnd' : (D'.map Prod.fst).Nodup := by
        rw [List.map_cons] at hDnd
        exact (List.nodup_cons.mp hDnd).2
      have h3 := ih (acc ++ [(k, v :: vs')]) h2 hDnd'
        (fun q hq => hvals q (List.mem_cons_of_mem _ hq))
      simpa using h3

/-- Round trip: `parse_qs(urlencode(D, doseq=True)) = D` for a well-formed dict. -/
theorem parseQs_urlencode (D : List (String × List String)) (hD : dictOk D) :
    parseQs (urlencodeDoseq D) = D := by
  unfold parseQs
  rw [parseQsl_urlencode D fun p hp => ⟨(hD.2 p hp).1, fun v hv => (hD.2 p hp).2.2 v hv⟩]
  have := fold_dictAdd_pairs D [] (by simp) hD.1 (fun p hp => (hD.2 p hp).2.1)
  simpa using this

theorem mem_dictAdd (acc : List (String × List String)) (n v : String)
    (p : String × List String) (hp : p ∈ dictAdd acc n v) :
    p ∈ acc ∨ (∃ ws, p = (n, ws ++ [v]) ∧ (n, ws) ∈ acc) ∨ p = (n, [v]) := by
  induction acc with
  | nil =>
    rw [dictAdd, List.mem_singleton] at hp
    exact Or.inr (Or.inr hp)
  | cons q rest ih =>
    obtain ⟨k, vs⟩ := q
    rw [dictAdd] at hp
    by_cases hk : k = n
    · rw [if_pos hk] at hp
      rcases List.mem_cons.mp hp with rfl | hp2
      · subst hk
        exact Or.inr (Or.inl ⟨vs, rfl, List.mem_cons_self _ _⟩)
      · exact Or.inl (List.mem_cons_of_mem _ hp2)
    · rw [if_neg hk] at hp
      rcases List.mem_cons.mp hp with rfl | hp2
      · exact Or.inl (List.mem_cons_self _ _)
      · rcases ih hp2 with h | ⟨ws, hw1, hw2⟩ | h
        · exact Or.inl (List.mem_cons_of_mem _ h)
        · exact Or.inr (Or.inl ⟨ws, hw1, List.mem_cons_of_mem _ hw2⟩)
        · exact Or.inr (Or.inr h)

theorem decodePart_some_val (nv : List Char) (pr : String × String)
    (h : decodePart nv = some pr) : pr.2 ≠ "" := by
  unfold decodePart at h
  split at h
  · exact absurd h (by simp)
  · match hsp : splitFirstChar '=' nv, h with
    | some (n, v), _ =>
      rw [hsp] at h
      dsimp only at h
      split at h
      · exact absurd h (by simp)
      · next hvne =>
        rw [Option.some_inj] at h
        subst h
        intro he
        apply unquotePlus_ne_nil v hvne
        have he2 : (⟨unquotePlus v⟩ : String) = "" := he
        have := congrArg String.data he2
        simpa using this

theorem parseQsl_val_ne (qs : String) : ∀ pr ∈ parseQsl qs, pr.2 ≠ "" := by
  intro pr hpr
  rw [parseQsl_eq_filterMap, List.mem_filterMap] at hpr
  obtain ⟨nv, _, hdec⟩ := hpr
  exact decodePart_some_val nv pr hdec

theorem fold_dictAdd_entries (pairs : List (String × String))
    (acc : List (String × List String))
    (hacc : ∀ p ∈ acc, p.2 ≠ [] ∧ ∀ v ∈ p.2, v ≠ "")
    (hpairs : ∀ pr ∈ pairs, pr.2 ≠ "") :
    ∀ p ∈ pairs.foldl (fun a pr => dictAdd a pr.1 pr.2) acc,
      p.2 ≠ [] ∧ ∀ v ∈ p.2, v ≠ "" := by
  induction pairs generalizing acc with
  | nil => exact hacc
  | cons pr rest ih =>
    rw [List.foldl_cons]
    apply ih
    · intro p hp
      rcases mem_dictAdd acc pr.1 pr.2 p hp with h | ⟨ws, hw1, hw2⟩ | h
      · exact hacc p h
      · subst hw1
        refine ⟨by simp, ?_⟩
        intro v hv
        rcases List.mem_append.mp hv with h1 | h2
        · exact (hacc (pr.1, ws) hw2).2 v h1
        · rw [List.mem_singleton] at h2
          subst h2
          exact hpairs pr (List.mem_cons_self _ _)
      · subst h
        refine ⟨by simp, ?_⟩
        intro v hv
        rw [List.mem_singleton] at hv
        subst hv
        exact hpairs pr (List.mem_cons_self _ _)
    · exact fun q hq => hpairs q (List.mem_cons_of_mem _ hq)

theorem parseQs_entries (qs : String) :
    ∀ p ∈ parseQs qs, p.2 ≠ [] ∧ ∀ v ∈ p.2, v ≠ "" := by
  unfold parseQs
  exact fold_dictAdd_entries (parseQsl qs) [] (by simp) (parseQsl_val_ne qs)

theorem dictAdd_keys (acc : List (String × List String)) (n v : String) :
    (dictAdd acc n v).map Prod.fst =
      if n ∈ acc.map Prod.fst then acc.map Prod.fst else acc.map Prod.fst ++ [n] := by
  induction acc with
  | nil => simp [dictAdd]
  | cons q rest ih =>
    obtain ⟨k, vs⟩ := q
    rw [dictAdd]
    by_cases hk : k = n
    · subst hk
      rw [if_pos rfl]
      simp
    · rw [if_neg hk, List.map_cons, List.map_cons, ih]
      by_cases hn : n ∈ rest.map Prod.fst
      · rw [if_pos hn, if_pos (by simp [hn])]
      · rw [if_neg hn, if_neg (by simp [hn, Ne.symm hk])]
        simp

theorem fold_dictAdd_keys_nodup (pairs : List (String × String))
    (acc : List (String × List String)) (h : (acc.map Prod.fst).Nodup) :
    ((pairs.foldl (fun a pr => dictAdd a pr.1 pr.2) acc).map Prod.fst).Nodup := by
  induction pairs generalizing acc with
  | nil => exact h
  | cons pr rest ih =>
    rw [List.foldl_cons]
    apply ih
    rw [dictAdd_keys]
    by_cases hn : pr.1 ∈ acc.map Prod.fst
    · rw [if_pos hn]
      exact h
    · rw [if_neg hn]
      rw [List.nodup_append]
      exact ⟨h, List.nodup_singleton _, by simpa using hn⟩

theorem parseQs_keys_nodup (qs : String) :
    ((parseQs qs).map Prod.fst).Nodup := by
  unfold parseQs
  exact fold_dictAdd_keys_nodup (parseQsl qs) [] (by simp)

theorem lookup_append_of_isSome (l l₂ : List (String × List String)) (k : String)
    (h : (l.lookup k).isSome) : (l ++ l₂).lookup k = l.lookup k := by
  induction l with
  | nil => simp [List.lookup] at h
  | cons p rest ih =>
    obtain ⟨k', vs⟩ := p
    by_cases hk : k = k'
    · simp [List.lookup, hk]
    · have hne : (k == k') = false := by simp [hk]
      simp only [List.cons_append, List.lookup, hne]
      apply ih
      simp only [List.lookup, hne] at h
      exact h

theorem any_key_eq_lookup_isSome (acc : List (String × List String)) (k : String) :
    acc.any (fun e => e.1 = k) = (acc.lookup k).isSome := by
  induction acc with
  | nil => rfl
  | cons p rest ih =>
    obtain ⟨k', vs⟩ := p
    by_cases hk : k = k'
    · simp [List.lookup, List.any_cons, hk]
    · have hne : (k == k') = false := by simp [hk]
      simp only [List.any_cons, List.lookup, hne, ih]
      simp [Ne.symm hk]

theorem addMissingUtm_cons (kv : String × String) (rest : List (String × String))
    (acc : List (String × List String)) :
    addMissingUtm (kv :: rest) acc =
      addMissingUtm rest
        (if acc.any (fun e => e.1 = kv.1) then acc else acc ++ [(kv.1, [kv.2])]) := by
  rw [addMissingUtm, List.foldl_cons]
  split <;> rfl

theorem addMissingUtm_mem (params : List (String × String))
    (acc : List (String × List String)) (p : String × List String)
    (hp : p ∈ addMissingUtm params acc) :
    p ∈ acc ∨ ∃ kv, kv ∈ params ∧ p = (kv.1, [kv.2]) := by
  induction params generalizing acc with
  | nil => exact Or.inl hp
  | cons kv rest ih =>
    rw [addMissingUtm_cons] at hp
    rcases ih _ hp with h | ⟨kv2, h1, h2⟩
    · split at h
      · exact Or.inl h
      · rcases List.mem_append.mp h with h2 | h2
        · exact Or.inl h2
        · rw [List.mem_singleton] at h2
          exact Or.inr ⟨kv, List.mem_cons_self _ _, h2⟩
    · exact Or.inr ⟨kv2, List.mem_cons_of_mem _ h1, h2⟩

theorem addMissingUtm_keys_nodup (params : List (String × String))
    (acc : List (String × List String)) (h : (acc.map Prod.fst).Nodup) :
    ((addMissingUtm params acc).map Prod.fst).Nodup := by
  induction params generalizing acc with
  | nil => exact h
  | cons kv rest ih =>
    rw [addMissingUtm_cons]
    apply ih
    split
    · exact h
    · next hany =>
      rw [List.map_append, List.nodup_append]
      refine ⟨h, by simp, ?_⟩
      intro a ha hb
      simp only [List.map_cons, List.map_nil, List.mem_singleton] at hb
      subst hb
      rw [List.mem_map] at ha
      obtain ⟨e, he, heq⟩ := ha
      exact hany (List.any_eq_true.mpr ⟨e, he, by simpa using heq⟩)

theorem addMissingUtm_lookup_preserved (params : List (String × String))
    (acc : List (String × List String)) (k : String)
    (h : (acc.lookup k).isSome) :
    (addMissingUtm params acc).lookup k = acc.lookup k := by
  induction params generalizing acc with
  | nil => rfl
  | cons kv rest ih =>
    rw [addMissingUtm_cons]
    split
    · exact ih acc h
    · rw [ih _ (by rw [lookup_append_of_isSome _ _ _ h]; exact h)]
      exact lookup_append_of_isSome _ _ _ h

theorem lookup_append_singleton_self (acc : List (String × List String))
    (k : String) (vs : List String) (h : (acc.lookup k).isSome = false) :
    (acc ++ [(k, vs)]).lookup k = some vs := by
  induction acc with
  | nil => simp [List.lookup]
  | cons q rest ih =>
    obtain ⟨k', ws⟩ := q
    by_cases hk : k = k'
    · subst hk
      simp [List.lookup] at h
    · have hne : (k == k') = false := by simp [hk]
      simp only [List.cons_append, List.lookup, hne] at h ⊢
      exact ih h

theorem addMissingUtm_lookup_params (params : List (String × String))
    (acc : List (String × List String)) :
    ∀ kv ∈ params, ((addMissingUtm params acc).lookup kv.1).isSome := by
  induction params generalizing acc with
  | nil => simp
  | cons kv0 rest ih =>
    intro kv hkv
    rw [addMissingUtm_cons]
    rcases List.mem_cons.mp hkv with rfl | hkv2
    · by_cases hpresent : (acc.lookup kv.1).isSome
      · rw [if_pos (by rw [any_key_eq_lookup_isSome]; exact hpresent)]
        rw [addMissingUtm_lookup_preserved rest acc kv.1 hpresent]
        exact hpresent
      · have hfalse : (acc.lookup kv.1).isSome = false := by
          revert hpresent
          cases (acc.lookup kv.1).isSome <;> simp
        rw [if_neg (by rw [any_key_eq_lookup_isSome, hfalse]; simp)]
        have hsome : ((acc ++ [(kv.1, [kv.2])]).lookup kv.1).isSome := by
          rw [lookup_append_singleton_self acc kv.1 [kv.2] hfalse]
          rfl
        rw [addMissingUtm_lookup_preserved rest _ kv.1 hsome]
        exact hsome
    · exact ih _ kv hkv2

theorem addMissingUtm_of_present (params : List (String × String))
    (acc : List (String × List String))
    (h : ∀ kv ∈ params, acc.any (fun e => e.1 = kv.1) = true) :
    addMissingUtm params acc = acc := by
  induction params with
  | nil => rfl
  | cons kv rest ih =>
    rw [addMissingUtm_cons, if_pos (h kv (List.mem_cons_self _ _))]
    exact ih fun q hq => h q (List.mem_cons_of_mem _ hq)

/-- Claim C7 counterexample: a URL that already carries a utm parameter
with an *empty* value does not keep it — `parse_qs` drops blank-valued
parameters (default `keep_blank_values=False`), so `_add_utm` overwrites
`utm_source=` with its own value. -/
theorem add_utm_overwrites_blank_utm :
    addUtm "https://news.example.com/a?utm_source=" "trending" "2026-10-12" =
      "https://news.example.com/a?utm_source=ai_this_week&utm_medium=email&utm_campaign=2026-10-12&utm_content=trending"
    ∧ (urlparse "https://news.example.com/a?utm_source=").query = "utm_source="
    ∧ parseQs "utm_source=" = []
    ∧ (parseQs (urlparse (addUtm "https://news.example.com/a?utm_source="
        "trending" "2026-10-12")).query).lookup "utm_source" = some ["ai_this_week"] := by
  refine ⟨by decide, by decide, by decide, by decide⟩

/-- Claim C7 amended: on the query component, `_add_utm` (1) never
changes the decoded value of an existing (non-blank) parameter, (2) adds
exactly the four documented utm parameters to a query-less URL, and
(3) is idempotent: a second application with the same section key and
run date is the identity on the already-augmented query.  Stated for
ASCII section keys, run dates and decoded query parameters (the values
the pipeline produces). -/
theorem add_utm_non_clobber_idempotent (s d q : String)
    (hs : s ≠ "") (hsa : strAscii s) (hd : d ≠ "") (hda : strAscii d)
    (hq : ∀ p ∈ parseQs q, strAscii p.1 ∧ ∀ v ∈ p.2, strAscii v) :
    (∀ k vs, (parseQs q).lookup k = some vs →
      (parseQs (addUtmQuery s d q)).lookup k = some vs)
    ∧ parseQs (addUtmQuery s d "") =
        [("utm_source", ["ai_this_week"]), ("utm_medium", ["email"]),
         ("utm_campaign", [d]), ("utm_content", [s])]
    ∧ addUtmQuery s d (addUtmQuery s d q) = addUtmQuery s d q := by
  have hutmOk : ∀ kv ∈ utmParams s d, strAscii kv.1 ∧ kv.2 ≠ "" ∧ strAscii kv.2 := by
    intro kv hkv
    simp only [utmParams, List.mem_cons, List.not_mem_nil, or_false] at hkv
    rcases hkv with rfl | rfl | rfl | rfl
    · exact ⟨by decide, by decide, by decide⟩
    · exact ⟨by decide, by decide, by decide⟩
    · exact ⟨by change strAscii "utm_campaign"; decide, hd, hda⟩
    · exact ⟨by change strAscii "utm_content"; decide, hs, hsa⟩
  have hEok : dictOk (addMissingUtm (utmParams s d) (parseQs q)) := by
    constructor
    · exact addMissingUtm_keys_nodup _ _ (parseQs_keys_nodup q)
    · intro p hp
      rcases addMissingUtm_mem _ _ p hp with h | ⟨kv, hkv, rfl⟩
      · obtain ⟨hne, hvs⟩ := parseQs_entries q p h
        exact ⟨(hq p h).1, hne, fun v hv => ⟨hvs v hv, (hq p h).2 v hv⟩⟩
      · obtain ⟨hk1, hk2, hk3⟩ := hutmOk kv hkv
        exact ⟨hk1, by simp, fun v hv => by
          rw [List.mem_singleton] at hv
          subst hv
          exact ⟨hk2, hk3⟩⟩
  have hE : parseQs (addUtmQuery s d q) =
      addMissingUtm (utmParams s d) (parseQs q) := by
    rw [addUtmQuery]
    exact parseQs_urlencode _ hEok
  refine ⟨?_, ?_, ?_⟩
  · intro k vs hk
    rw [hE]
    rw [addMissingUtm_lookup_preserved _ _ k (by rw [hk]; rfl)]
    exact hk
  · have hE0 : addMissingUtm (utmParams s d) (parseQs "") =
        [("utm_source", ["ai_this_week"]), ("utm_medium", ["email"]),
         ("utm_campaign", [d]), ("utm_content", [s])] := rfl
    have hE0ok : dictOk [("utm_source", ["ai_this_week"]), ("utm_medium", ["email"]),
        ("utm_campaign", [d]), ("utm_content", [s])] := by
      constructor
      · change (["utm_source", "utm_medium", "utm_campaign", "utm_content"] :
          List String).Nodup
        decide
      · intro p hp
        simp only [List.mem_cons, List.not_mem_nil, or_false] at hp
        rcases hp with rfl | rfl | rfl | rfl
        · exact ⟨by decide, by simp, fun v hv => by
            rw [List.mem_singleton] at hv
            subst hv
            exact ⟨by decide, by decide⟩⟩
        · exact ⟨by decide, by simp, fun v hv => by
            rw [List.mem_singleton] at hv
            subst hv
            exact ⟨by decide, by decide⟩⟩
        · exact ⟨by change strAscii "utm_campaign"; decide, by simp, fun v hv => by
            rw [List.mem_singleton] at hv
            subst hv
            exact ⟨hd, hda⟩⟩
        · exact ⟨by change strAscii "utm_content"; decide, by simp, fun v hv => by
            rw [List.mem_singleton] at hv
            subst hv
            exact ⟨hs, hsa⟩⟩
    rw [addUtmQuery, hE0]
    exact parseQs_urlencode _ hE0ok
  · rw [show addUtmQuery s d (addUtmQuery s d q) =
        urlencodeDoseq (addMissingUtm (utmParams s d)
          (parseQs (addUtmQuery s d q))) from rfl]
    rw [hE]
    rw [addMissingUtm_of_present _ _ ?hpresent]
    case hpresent =>
      intro kv hkv
      rw [any_key_eq_lookup_isSome]
      exact addMissingUtm_lookup_params (utmParams s d) (parseQs q) kv hkv
    rfl

/-- Witness for `add_utm_non_clobber_idempotent`: a concrete query with
an existing tracking parameter; the second application is the identity. -/
theorem add_utm_non_clobber_idempotent_witness :
    addUtmQuery "trending" "2026-10-12"
        (addUtmQuery "trending" "2026-10-12" "id=42&utm_source=x") =
      addUtmQuery "trending" "2026-10-12" "id=42&utm_source=x" :=
  (add_utm_non_clobber_idempotent "trending" "2026-10-12" "id=42&utm_source=x"
    (by decide) (by decide) (by decide) (by decide) (by decide)).2.2

end NewsAuto
